import Mathlib

/-!
Verification development for the PreflopAdvisor repository.

The definitions below are a shallow embedding of the Python sources
`preflop_advisor/hand_convert_helper.py` and `preflop_advisor/tree_reader.py`.
Hands are modelled as lists of characters (the Python strings), fallible code
(code that can raise `KeyError` / `ValueError` / `IndexError`) is modelled with
`Option`, where `none` means an uncaught exception, and Python's stable
`list.sort` is modelled with `List.insertionSort`, which is stable with the
same convention (an element inserted later is placed after earlier elements
with an equal key for ascending keys; see the comparator orientation at each
use site).
-/

namespace PreflopAdvisor

/-- Embedding of `RANK_ORDER` from `hand_convert_helper.py` line 13. -/
def RANK_ORDER : List (Char × Nat) :=
  [('A', 12), ('K', 11), ('Q', 10), ('J', 9), ('T', 8), ('9', 7), ('8', 6),
   ('7', 5), ('6', 4), ('5', 3), ('4', 2), ('3', 1), ('2', 0)]

/-- Embedding of `RANKS` (line 14): the list "AKQJT98765432". -/
def RANKS : List Char :=
  ['A', 'K', 'Q', 'J', 'T', '9', '8', '7', '6', '5', '4', '3', '2']

/-- Embedding of `SUITS` (line 15): the list "cdhs". -/
def SUITS : List Char := ['c', 'd', 'h', 's']

/-- Python dictionary lookup `RANK_ORDER[c]`; `none` models a `KeyError`. -/
def rankOrder? (c : Char) : Option Nat :=
  (RANK_ORDER.find? (fun p => p.1 == c)).map (fun p => p.2)

/-- Total version of the `RANK_ORDER[c]` lookup, used only in code paths where
the character has already been validated against `RANKS`, so the default is
never produced there and the model agrees with Python. -/
def rankOrderD (c : Char) : Nat := (rankOrder? c).getD 0

/-- Python `list.sort(key=...)` (stable, ascending) with a total key. -/
def pySortAsc (key : α → Nat) (l : List α) : List α :=
  List.insertionSort (fun a b => key a ≤ key b) l

/-- Python `list.sort(key=..., reverse=True)` (stable, descending) with a total
key: a later element is placed after earlier elements with an equal key. -/
def pySortDesc (key : α → Nat) (l : List α) : List α :=
  List.insertionSort (fun a b => key b ≤ key a) l

/-- Python `sorted` with a lexicographic pair key (Python tuple comparison). -/
def pySortLex (key : α → Nat × Nat) (l : List α) : List α :=
  List.insertionSort
    (fun a b => (key a).1 < (key b).1 ∨ ((key a).1 = (key b).1 ∧ (key a).2 ≤ (key b).2)) l

/-- Python `sorted` with a fallible key (dictionary lookups inside the key
function): CPython evaluates the key on every element before comparing, so a
single invalid element makes the whole sort raise, modelled by `none`. -/
def pySortAscE (key : α → Option Nat) (l : List α) : Option (List α) :=
  if l.all (fun a => (key a).isSome) then
    some (pySortAsc (fun a => (key a).getD 0) l)
  else none

/-- Fallible descending sort, same conventions as `pySortAscE`. -/
def pySortDescE (key : α → Option Nat) (l : List α) : Option (List α) :=
  if l.all (fun a => (key a).isSome) then
    some (pySortDesc (fun a => (key a).getD 0) l)
  else none

/-- Fallible lexicographic sort, same conventions as `pySortAscE`. -/
def pySortLexE (key : α → Option (Nat × Nat)) (l : List α) : Option (List α) :=
  if l.all (fun a => (key a).isSome) then
    some (pySortLex (fun a => (key a).getD (0, 0)) l)
  else none

/-- A card is a pair (rank character, suit character), the two characters of a
two-character group of the hand string. -/
abbrev Card := Char × Char

/-- Embedding of `convert_holdem_hand` (lines 39-57).  The sort key is a raw
`RANK_ORDER[x]` dictionary lookup on unvalidated characters, so the function
can raise `KeyError`, modelled by `none`. -/
def convert_holdem_hand (hand : List Char) : Option (List Char) :=
  if hand.length ≠ 4 then some hand
  else
    let ranks : List Char := [hand.getD 0 ' ', hand.getD 2 ' ']
    let suits : List Char := [hand.getD 1 ' ', hand.getD 3 ' ']
    match pySortDescE rankOrder? ranks with
    | none => none
    | some rs =>
      let r0 := rs.getD 0 ' '
      let r1 := rs.getD 1 ' '
      if r0 = r1 then some [r0, r0]
      else if suits.getD 0 ' ' = suits.getD 1 ' ' then some [r0, r1, 's']
      else some [r0, r1, 'o']

/-- Suit iteration order of the Python dictionaries `suit_count` (line 85) and
`suit_ranks` (line 162): insertion order "s", "d", "h", "c". -/
def suitKeys : List Char := ['s', 'd', 'h', 'c']

/-- The dictionary `suit_count` of `convert_omaha_hand` (lines 84-89): the
count of suit `x` among the suit characters of the hand, which are exactly the
suit projection of the card list. -/
def suitCountsOf (cards : List Card) (x : Char) : Nat :=
  (cards.map (fun c => c.2)).count x

/-- Cards whose suit occurs exactly once, collected in suit-key order
(lines 100-104). -/
def cardsSingleSuitOf (cards : List Card) : List Card :=
  suitKeys.flatMap (fun s =>
    if suitCountsOf cards s = 1 then cards.filter (fun c => c.2 == s) else [])

/-- Per-suit groups of cards whose suit occurs exactly twice, collected in
suit-key order (lines 105-111). -/
def cardsTwoSuitedOf (cards : List Card) : List (List Card) :=
  suitKeys.filterMap (fun s =>
    if suitCountsOf cards s = 2 then some (cards.filter (fun c => c.2 == s)) else none)

/-- Cards whose suit occurs exactly three times (lines 112-116). -/
def cardsThreeSuitedOf (cards : List Card) : List Card :=
  suitKeys.flatMap (fun s =>
    if suitCountsOf cards s = 3 then cards.filter (fun c => c.2 == s) else [])

/-- Cards whose suit occurs exactly four times (lines 117-121). -/
def cardsFourSuitedOf (cards : List Card) : List Card :=
  suitKeys.flatMap (fun s =>
    if suitCountsOf cards s = 4 then cards.filter (fun c => c.2 == s) else [])

/-- Body of `convert_omaha_hand` after validation (lines 83-142). -/
def omahaBuild (cards : List Card) : List Char :=
      let singlesStr : List Char :=
        (pySortAsc (fun c => rankOrderD c.1) (cardsSingleSuitOf cards)).map (fun c => c.1)
      let twoSorted : List (List Card) :=
        (cardsTwoSuitedOf cards).map (pySortAsc (fun c => rankOrderD c.1))
      let twoOuter : List (List Card) :=
        pySortLex (fun g =>
          (rankOrderD ((g.getD 1 (' ', ' ')).1), rankOrderD ((g.getD 0 (' ', ' ')).1))) twoSorted
      let pairsStr : List Char :=
        twoOuter.flatMap (fun g =>
          ['(', (g.getD 0 (' ', ' ')).1, (g.getD 1 (' ', ' ')).1, ')'])
      let threeStr : List Char :=
        if (cardsThreeSuitedOf cards).isEmpty then []
        else
          let t := pySortAsc (fun c => rankOrderD c.1) (cardsThreeSuitedOf cards)
          ['(', (t.getD 0 (' ', ' ')).1, (t.getD 1 (' ', ' ')).1, (t.getD 2 (' ', ' ')).1, ')']
      let fourStr : List Char :=
        if (cardsFourSuitedOf cards).isEmpty then []
        else
          ['('] ++ (pySortAsc (fun c => rankOrderD c.1) (cardsFourSuitedOf cards)).map (fun c => c.1)
            ++ [')']
      singlesStr ++ pairsStr ++ threeStr ++ fourStr

/-- Embedding of `convert_omaha_hand` (lines 60-142).  Every `RANK_ORDER`
lookup in this function happens after all four rank characters were validated
against `RANKS`, so the function is total and `rankOrderD` is faithful. -/
def convert_omaha_hand (hand : List Char) : List Char :=
  if hand.length ≠ 8 then hand
  else
    let ranks : List Char := [hand.getD 0 ' ', hand.getD 2 ' ', hand.getD 4 ' ', hand.getD 6 ' ']
    let suits : List Char := [hand.getD 1 ' ', hand.getD 3 ' ', hand.getD 5 ' ', hand.getD 7 ' ']
    if ¬ ranks.all (fun r => RANKS.contains r) then hand
    else if ¬ suits.all (fun s => SUITS.contains s) then hand
    else
      omahaBuild
        [(hand.getD 0 ' ', hand.getD 1 ' '), (hand.getD 2 ' ', hand.getD 3 ' '),
         (hand.getD 4 ' ', hand.getD 5 ' '), (hand.getD 6 ' ', hand.getD 7 ' ')]

/-- The slicing `[hand[i:i+2] for i in range(0, len(hand), 2)]` on an
even-length string: consecutive two-character groups as (first, second). -/
def chunkPairs : List Char → List Card
  | [] => []
  | [c] => [(c, ' ')]
  | a :: b :: rest => (a, b) :: chunkPairs rest

/-- The per-suit rank groups of `convert_omaha5_hand` (lines 162-168): the
dictionary `suit_ranks` in its insertion order, each group sorted with a raw
`RANK_ORDER` key (fallible). -/
def omaha5Groups (cards : List Card) : Option (List (List Char)) :=
  (suitKeys.map (fun s => (cards.filter (fun c => c.2 == s)).map (fun c => c.1))).mapM
    (pySortAscE rankOrder?)

/-- Sort key of the suited groups (line 181): the pair of `RANK_ORDER` lookups
of the first two characters of a group, fallible on invalid characters. -/
def omaha5SuitedKey (g : List Char) : Option (Nat × Nat) :=
  match rankOrder? (g.getD 0 ' '), rankOrder? (g.getD 1 ' ') with
  | some x, some y => some (x, y)
  | _, _ => none

/-- Body of `convert_omaha5_hand` after grouping (lines 170-187). -/
def omaha5Build (sortedGroups : List (List Char)) : Option (List Char) :=
  let unsuitedCards : List Char :=
    sortedGroups.flatMap (fun g => if g.length = 1 then g else [])
  let suitedCards : List (List Char) :=
    sortedGroups.filter (fun g => decide (1 < g.length))
  match pySortAscE rankOrder? unsuitedCards with
  | none => none
  | some unsuitedSorted =>
    match pySortLexE omaha5SuitedKey suitedCards with
    | none => none
    | some suitedSorted =>
      some (unsuitedSorted ++ suitedSorted.flatMap (fun g => ['('] ++ g ++ [')']))

/-- Embedding of `convert_omaha5_hand` (lines 145-187).  The sort keys are raw
`RANK_ORDER` lookups on characters that are not individually validated (only
counted), so the function can raise `KeyError`, modelled by `none`. -/
def convert_omaha5_hand (hand : List Char) : Option (List Char) :=
  if hand.length ≠ 8 ∧ hand.length ≠ 10 then some hand
  else
    let ranks : List Char := hand.filter (fun c => RANKS.contains c)
    let suits : List Char := hand.filter (fun c => SUITS.contains c)
    if ¬ (ranks.length = 4 ∨ ranks.length = 5) ∨ ranks.length ≠ suits.length then some hand
    else
      match omaha5Groups (chunkPairs hand) with
      | none => none
      | some sortedGroups => omaha5Build sortedGroups

/-- Embedding of `convert_hand` (lines 21-36): strip spaces, dispatch on the
length (8, then 4, then 10), return the stripped hand unchanged otherwise. -/
def convert_hand (hand : List Char) : Option (List Char) :=
  let h := hand.filter (fun c => c ≠ ' ')
  if h.length = 8 then some (convert_omaha_hand h)
  else if h.length = 4 then convert_holdem_hand h
  else if h.length = 10 then convert_omaha5_hand h
  else some h

/-- Flatten a list of cards back into the hand string it came from. -/
def flattenCards (cs : List Card) : List Char :=
  cs.flatMap (fun c => [c.1, c.2])

/-- A dealt card list is valid when every rank character is in `RANKS` and
every suit character is in `SUITS`. -/
def ValidCards (cs : List Card) : Prop :=
  ∀ c ∈ cs, c.1 ∈ RANKS ∧ c.2 ∈ SUITS

instance : DecidablePred ValidCards := fun cs =>
  inferInstanceAs (Decidable (∀ c ∈ cs, c.1 ∈ RANKS ∧ c.2 ∈ SUITS))

/-- Section contribution of a suit with `m` cards to the bare singles part. -/
def sContrib (m : Nat) : Nat := if m = 1 then m else 0

/-- Number of suited-pair groups contributed by a suit with `m` cards. -/
def pContrib (m : Nat) : Nat := if m = 2 then 1 else 0

/-- Cards contributed by a suit with `m` cards to the triple-suited list. -/
def tContrib (m : Nat) : Nat := if m = 3 then m else 0

/-- Cards contributed by a suit with `m` cards to the four-suited list. -/
def qContrib (m : Nat) : Nat := if m = 4 then m else 0

/-- Output characters contributed by a suit with `m` cards in the five-card
converter: one bare character for a singleton, the parenthesized group
otherwise. -/
def wContrib (m : Nat) : Nat := if m = 1 then 1 else if 2 ≤ m then m + 2 else 0

/-- Closed form of the four-card Omaha output length in terms of the four suit
counts. -/
def omahaLen (a b c d : Nat) : Nat :=
  sContrib a + sContrib b + sContrib c + sContrib d
    + 4 * (pContrib a + pContrib b + pContrib c + pContrib d)
    + (if tContrib a + tContrib b + tContrib c + tContrib d = 0 then 0 else 5)
    + (if qContrib a + qContrib b + qContrib c + qContrib d = 0 then 0
       else 2 + (qContrib a + qContrib b + qContrib c + qContrib d))

/-! Embedding of `tree_reader.py`.  The filesystem is modelled as a partial
map from path to the list of file lines (without their trailing newline);
`none` is a missing file.  Configuration dictionaries are association lists
with Python `dict` semantics (`setdefault` keeps existing bindings, lookup
returns the stored value).  `int(self.configs.get("CacheSize", 100))` is
modelled by passing the cache size as a parameter. -/

/-- Filesystem model: path to file lines. -/
abbrev FS := String → Option (List String)

/-- Configuration dictionary. -/
abbrev Config := List (String × String)

/-- Dictionary lookup `configs[k]` / `configs.get(k)`. -/
def cfgGet (cfg : Config) (k : String) : Option String :=
  (cfg.find? (fun p => p.1 == k)).map (fun p => p.2)

/-- Dictionary membership `k in configs`. -/
def cfgMem (cfg : Config) (k : String) : Bool :=
  (cfgGet cfg k).isSome

/-- Python `dict.setdefault`: keep an existing binding, else append one. -/
def setdefault (cfg : Config) (k v : String) : Config :=
  if cfgMem cfg k then cfg else cfg ++ [(k, v)]

/-- Python `str.split(sep)` with a one-character separator: split on every
occurrence, keeping empty pieces.  (Character-level model of `String.splitOn`,
kernel-computable.) -/
def splitCharAux (sep : Char) : List Char → List (List Char)
  | [] => [[]]
  | c :: rest =>
    let r := splitCharAux sep rest
    if c = sep then [] :: r
    else (c :: r.headD []) :: r.tail

/-- Python `str.split(sep)` producing strings. -/
def pySplitOn (sep : Char) (s : String) : List String :=
  (splitCharAux sep s.toList).map String.mk

/-- Python `str.strip()`: drop whitespace from both ends. -/
def pyStrip (s : String) : String :=
  String.mk (((s.toList.dropWhile Char.isWhitespace).reverse.dropWhile
    Char.isWhitespace).reverse)

/-- Python `str.replace(" ", "")`: remove every space. -/
def removeSpaces (s : String) : String :=
  String.mk (s.toList.filter (fun c => c ≠ ' '))

/-- First match of the regular expression `\d+\.?\d*` in a string: it starts
at the first digit and takes the maximal digit run, an optional dot, and more
digits (`re.findall(...)[0]`, lines 54 and 162 of `tree_reader.py`). -/
def firstNumericPart (s : String) : Option String :=
  let cs := s.toList.dropWhile (fun c => ¬ c.isDigit)
  if cs.isEmpty then none
  else
    let ds := cs.takeWhile Char.isDigit
    match cs.drop ds.length with
    | '.' :: rest => some (String.mk (ds ++ ['.'] ++ rest.takeWhile Char.isDigit))
    | _ => some (String.mk ds)

/-- Value of a digit character. -/
def digitVal (c : Char) : Nat := c.toNat - '0'.toNat

/-- Value of a digit string. -/
def digitsVal (cs : List Char) : Nat :=
  cs.foldl (fun n c => n * 10 + digitVal c) 0

/-- Parse a decimal literal `d+[.d*]` into an exact rational. -/
def parseDecimal (cs : List Char) : Option ℚ :=
  let intPart := cs.takeWhile Char.isDigit
  if intPart.isEmpty then none
  else
    match cs.drop intPart.length with
    | [] => some (digitsVal intPart : ℚ)
    | '.' :: frac =>
      if frac.all Char.isDigit then
        some ((digitsVal intPart : ℚ) + (digitsVal frac : ℚ) / ((10 : ℚ) ^ frac.length))
      else none
    | _ => none

/-- Model of `int(float(m) * 100)` for the numeric part `m` (a decimal
literal `d+[.d*]`), in exact arithmetic: the literal value is `n / 10^l` with
`l` fractional digits and `int(v * 100)` is `⌊n * 100 / 10^l⌋`.  The model is
restricted (`none`) to small dyadic values — `5^l` divides `n` — where IEEE
double parsing and the multiplication by 100 are exact, so the model provably
agrees with CPython there; a literal such as "3.3" is outside the modelled
fragment (CPython computes `int(3.3 * 100) = 329` by rounding). -/
def pyTimes100Int (m : String) : Option Nat :=
  let cs := m.toList
  let intPart := cs.takeWhile Char.isDigit
  if intPart.isEmpty then none
  else
    match cs.drop intPart.length with
    | [] =>
      if digitsVal intPart ≤ 2 ^ 40 then some (digitsVal intPart * 100) else none
    | '.' :: frac =>
      if frac.all Char.isDigit then
        let n := digitsVal intPart * 10 ^ frac.length + digitsVal frac
        if n % 5 ^ frac.length = 0 ∧ n ≤ 2 ^ 40 * 10 ^ frac.length then
          some (n * 100 / 10 ^ frac.length)
        else none
      else none
    | _ => none

/-- The `Raise<int(value*100)>` key computed for one ladder entry
(lines 51-61 and 158-167): `some none` means the entry has no numeric part
and is skipped; the outer `none` means the value is outside the modelled
float fragment. -/
def raiseKeyOfEntry (entry : String) : Option (Option String) :=
  match firstNumericPart (pyStrip entry) with
  | none => some none
  | some m =>
    match pyTimes100Int m with
    | none => none
    | some v => some (some ("Raise" ++ toString v))

/-- Adds the ladder-derived keys to the configuration (`__init__`,
lines 50-61). -/
def addRaiseKeys (cfg : Config) : List String → Option Config
  | [] => some cfg
  | e :: rest =>
    match raiseKeyOfEntry e with
    | none => none
    | some none => addRaiseKeys cfg rest
    | some (some k) => addRaiseKeys (setdefault cfg k k) rest

/-- Embedding of the configuration mutation of `ActionProcessor.__init__`
(lines 41-61): the `setdefault` calls followed by the ladder keys. -/
def initConfigs (cfg : Config) : Option Config :=
  let cfg₁ := setdefault cfg "Fold" "0"
  let cfg₂ := setdefault cfg₁ "Call" "1"
  let cfg₃ := setdefault cfg₂ "RaisePot" "2"
  let cfg₄ := setdefault cfg₃ "All_In" "3"
  let cfg₅ := setdefault cfg₄ "Ending" ".rng"
  let cfg₆ := setdefault cfg₅ "RaiseSizeList" "2.5,3.0,4.0"
  let cfg₇ := setdefault cfg₆ "ValidActions" "Fold,Call,Raise"
  addRaiseKeys cfg₇ (pySplitOn ',' ((cfgGet cfg₇ "RaiseSizeList").getD ""))

/-- Inner loop of `get_action_sequence` (lines 100-111): walk the rotation
indices from the current start, folding not-yet-folded seats until the
decision seat is matched; on a match the new start index is just past the
matched seat, otherwise the start index is unchanged. -/
def scanIdx (P : List String) (seat act : String) (start : Nat) :
    List Nat → List (String × String) → List String →
      List (String × String) × List String × Nat
  | [], acc, folded => (acc, folded, start)
  | idx :: rest, acc, folded =>
    let pi := (idx + start) % P.length
    let pos := P.getD pi ""
    if pos ≠ seat then
      if pos ∉ folded then
        scanIdx P seat act start rest (acc ++ [(pos, "Fold")]) (folded ++ [pos])
      else
        scanIdx P seat act start rest acc folded
    else
      (acc ++ [(pos, act)], folded, pi + 1)

/-- Embedding of `ActionProcessor.get_action_sequence` (lines 88-113). -/
def get_action_sequence (P : List String) (action_list : List (String × String)) :
    List (String × String) :=
  (action_list.foldl
    (fun st a => scanIdx P a.1 a.2 st.2.2 (List.range P.length) st.1 st.2.1)
    ([], [], 0)).1

/-- Resolution of the abstract raises against the ladder
(`find_valid_raise_sizes` body, lines 153-168): the first ladder entry with a
numeric part supplies the key for every abstract Raise; when no entry has a
numeric part the Raise entry is dropped. -/
def firstRaiseKey : List String → Option (Option String)
  | [] => some none
  | e :: rest =>
    match raiseKeyOfEntry e with
    | none => none
    | some none => firstRaiseKey rest
    | some (some k) => some (some k)

/-- The per-entry loop of `find_valid_raise_sizes`. -/
def resolveRaises (ladder : List String) : List (String × String) →
    Option (List (String × String))
  | [] => some []
  | (pos, act) :: rest =>
    if act ≠ "Raise" then
      (resolveRaises ladder rest).map (fun t => (pos, act) :: t)
    else
      match firstRaiseKey ladder with
      | none => none
      | some none => resolveRaises ladder rest
      | some (some k) => (resolveRaises ladder rest).map (fun t => (pos, k) :: t)

/-- Embedding of `ActionProcessor.find_valid_raise_sizes` (lines 145-169).
The function never consults the filesystem: substitution is by ladder order
only, regardless of file existence. -/
def find_valid_raise_sizes (cfg : Config) (seq : List (String × String)) :
    Option (List (String × String)) :=
  resolveRaises (pySplitOn ',' ((cfgGet cfg "RaiseSizeList").getD "")) seq

/-- The token-joining loop of `get_filename` (lines 244-253), carrying the
configuration because `Raise*` tokens are auto-registered into it. -/
def filenameGo (cfg : Config) (acc : String) :
    List (String × String) → String × Config
  | [] => (String.mk (acc.toList.dropWhile (fun c => c = '.')) ++ (cfgGet cfg "Ending").getD "",
      cfg)
  | (_, act) :: rest =>
    let cfg' := if "Raise".toList.isPrefixOf act.toList ∧ ¬ cfgMem cfg act then
        cfg ++ [(act, act)] else cfg
    match cfgGet cfg' act with
    | none => ("", cfg')
    | some tok => filenameGo cfg' (acc ++ "." ++ tok) rest

/-- Embedding of `ActionProcessor.get_filename` (lines 237-256): dot-joined
per-action tokens with the configured ending; a missing token for a
non-Raise action yields the empty string immediately (no ending). -/
def get_filename (cfg : Config) (seq : List (String × String)) : String × Config :=
  filenameGo cfg "" seq

/-- Model of `os.path.join` for a relative file name. -/
def joinPath (dir file : String) : String := dir ++ "/" ++ file

/-- Embedding of `ActionProcessor.test_action_sequence` (lines 171-181). -/
def test_action_sequence (fs : FS) (path : String) (cfg : Config)
    (seq : List (String × String)) : Bool × Config :=
  let fc := get_filename cfg seq
  ((fs (joinPath path fc.1)).isSome, fc.2)

/-- A parsed range table (`read_file_into_hash` result): (hand, info) pairs
in file order; lookup takes the last binding, matching dict overwrite. -/
abbrev Table := List (String × String)

/-- Dictionary lookup in a table (`.get`, last binding wins). -/
def tblGet (t : Table) (k : String) : Option String :=
  (t.reverse.find? (fun p => p.1 == k)).map (fun p => p.2)

/-- The line-pairing loop of `read_file_into_hash` (lines 77-81): hand line,
then info line, both stripped; a trailing hand line without info is
skipped. -/
def pairLines : List String → Table
  | h :: info :: rest => (pyStrip h, pyStrip info) :: pairLines rest
  | _ => []

/-- Embedding of `ActionProcessor.read_file_into_hash` (lines 65-86): a
missing file is caught (`FileNotFoundError`) and yields the empty table. -/
def read_file_into_hash (fs : FS) (filename : String) : Table :=
  match fs filename with
  | none => []
  | some lines => pairLines lines

/-- A result row `[last_action, frequency, ev]`. -/
abbrev Result := String × ℚ × ℚ

/-- Model of Python `float(s)` on plain decimal literals with an optional
sign; `none` models `ValueError`. -/
def pyFloat (s : String) : Option ℚ :=
  match (pyStrip s).toList with
  | '-' :: rest => (parseDecimal rest).map (fun q => -q)
  | cs => parseDecimal cs

/-- The lookup-and-parse step shared by the cached read (lines 223-232):
a missing or empty info entry gives the degraded row `["", 0, 0]`; a
malformed info line raises (`none`). -/
def lookupResult (tbl : Table) (hand : String) (seq : List (String × String)) :
    Option Result :=
  match tblGet tbl hand with
  | none => some ("", 0, 0)
  | some info =>
    if info = "" then some ("", 0, 0)
    else
      match pySplitOn ';' info with
      | i0 :: i1 :: _ =>
        match pyFloat i0, pyFloat i1 with
        | some freq, some ev =>
          match seq.getLast? with
          | none => none
          | some p => some (p.2, freq, ev)
        | _, _ => none
      | _ => none

/-- Global cache `CACHE`: an ordered dictionary from filename to table, in
insertion order (new entries at the back, `popitem(last=False)` at the
front). -/
abbrev Cache := List (String × Table)

/-- Embedding of `ActionProcessor.read_hand_with_cache` (lines 207-235).
Returns the result (`none` models an uncaught `ValueError` on a malformed
info line), the configuration updated by `get_filename`, the cache, and
whether the file was read (`read_file_into_hash` called).  A hit performs no
reordering: CPython leaves the `OrderedDict` order unchanged on lookup.  The
eviction `popitem(last=False)` removes the front (oldest-inserted) entry;
called on an empty dictionary it would raise, which the model does not
represent — that state is unreachable from `get_results`, which routes
`cache_size == 0` to `read_hand`. -/
def read_hand_with_cache (fs : FS) (cacheSize : Nat) (path : String) (cfg : Config)
    (hand : String) (seq : List (String × String)) (cache : Cache) :
    Option Result × Config × Cache × Bool :=
  let fc := get_filename cfg seq
  let filename := joinPath path fc.1
  match cache.find? (fun p => p.1 == filename) with
  | some entry => (lookupResult entry.2 hand seq, fc.2, cache, false)
  | none =>
    let cache₁ := if cacheSize ≤ cache.length then cache.drop 1 else cache
    let tbl := read_file_into_hash fs filename
    (lookupResult tbl hand seq, fc.2, cache₁ ++ [(filename, tbl)], true)

/-- The line-streaming loop of `read_hand` (lines 194-202).  File lines are
modelled without their trailing newline, so `hand + "\n" in line` becomes
`endsWith hand` and `len(line) < 12` becomes `length + 1 < 12`; a match on
the last line makes the following `readline` parse fail (`none`). -/
def scanLinesRH (hand : String) (lastAct : Option String) : List String → Option Result
  | [] => some ("", 0, 0)
  | line :: rest =>
    if hand.toList.isSuffixOf line.toList ∧ line.length + 1 < 12 then
      match rest with
      | [] => none
      | info :: _ =>
        match pySplitOn ';' (pyStrip info) with
        | i0 :: i1 :: _ =>
          match pyFloat i0, pyFloat i1 with
          | some freq, some ev =>
            match lastAct with
            | none => none
            | some a => some (a, freq, ev)
          | _, _ => none
        | _ => none
    else scanLinesRH hand lastAct rest

/-- Embedding of `ActionProcessor.read_hand` (lines 183-205): stream the
file; a missing file is caught and degrades to `["", 0, 0]`.  No cache is
consulted or modified. -/
def read_hand (fs : FS) (path : String) (cfg : Config) (hand : String)
    (seq : List (String × String)) : Option Result × Config :=
  let fc := get_filename cfg seq
  match fs (joinPath path fc.1) with
  | none => (some ("", 0, 0), fc.2)
  | some lines => (scanLinesRH hand (seq.getLast?.map (fun p => p.2)) lines, fc.2)

/-- The per-action loop of `get_results` (lines 132-141), threading the
configuration and the cache. -/
def goActions (fs : FS) (cacheSize : Nat) (path : String) (P : List String)
    (hand : String) (abl : List (String × String)) (position : String) :
    List String → Config → Cache → List Result →
      Option (List Result × Config × Cache)
  | [], cfg, cache, acc => some (acc, cfg, cache)
  | action :: rest, cfg, cache, acc =>
    let fsq := get_action_sequence P (abl ++ [(position, action)])
    match find_valid_raise_sizes cfg fsq with
    | none => none
    | some fsq' =>
      let tc := test_action_sequence fs path cfg fsq'
      if tc.1 then
        if cacheSize = 0 then
          let rc := read_hand fs path tc.2 hand fsq'
          match rc.1 with
          | none => none
          | some r =>
            goActions fs cacheSize path P hand abl position rest rc.2 cache (acc ++ [r])
        else
          let rc := read_hand_with_cache fs cacheSize path tc.2 hand fsq' cache
          match rc.1 with
          | none => none
          | some r =>
            goActions fs cacheSize path P hand abl position rest rc.2.1 rc.2.2.1 (acc ++ [r])
      else
        goActions fs cacheSize path P hand abl position rest tc.2 cache acc

/-- Embedding of `ActionProcessor.get_results` (lines 115-143): `none` models
an uncaught exception (hand conversion, malformed info line, or a ladder
value outside the modelled float fragment). -/
def get_results (fs : FS) (cacheSize : Nat) (path : String) (P : List String)
    (cfg : Config) (hand : String) (abl : List (String × String)) (position : String)
    (cache : Cache) : Option (List Result × Config × Cache) :=
  if position ∉ P then some ([], cfg, cache)
  else
    match convert_hand hand.toList with
    | none => none
    | some handChars =>
      goActions fs cacheSize path P (String.mk handChars) abl position
        (pySplitOn ',' (removeSpaces ((cfgGet cfg "ValidActions").getD ""))) cfg cache []

/-- Embedding of `TreeReader.get_vs_4bet` (lines 443-470), parametrized by
the `ActionProcessor.get_results` call (which performs the file access); the
guard logic and prefix construction are from the source. -/
def get_vs_4bet (P : List String) (getResults : List (String × String) → String → List α)
    (position reraise_position : String) : List α :=
  let pos_index := P.indexOf position
  if position = reraise_position ∨ pos_index = 0 then []
  else if P.indexOf reraise_position < pos_index then
    getResults [(reraise_position, "Raise"), (position, "Raise"), (reraise_position, "Raise")]
      position
  else
    getResults [(P.getD (pos_index - 1) "", "Raise"), (position, "Raise"),
      (reraise_position, "Raise")] position

/-- Embedding of `TreeReader.get_4bet` (lines 472-506). -/
def get_4bet (P : List String) (getResults : List (String × String) → String → List α)
    (position threebet_position : String) : List α :=
  let pos_index := P.indexOf position
  let threebet_pos_index := P.indexOf threebet_position
  if position = threebet_position then []
  else if threebet_pos_index < pos_index then
    if threebet_pos_index = 0 then []
    else
      getResults [(P.getD (threebet_pos_index - 1) "", "Raise"), (threebet_position, "Raise")]
        position
  else
    getResults [(position, "Raise"), (threebet_position, "Raise")] position

/-- Embedding of `TreeReader.get_squeeze` (lines 508-530). -/
def get_squeeze (P : List String) (getResults : List (String × String) → String → List α)
    (position rfi_position : String) : List α :=
  let pos_index := P.indexOf position
  let rfi_index := P.indexOf rfi_position
  if pos_index ≤ rfi_index + 1 then []
  else getResults [(rfi_position, "Raise"), (P.getD (rfi_index + 1) "", "Call")] position

/-- Embedding of `TreeReader.get_vs_squeeze` (lines 532-554). -/
def get_vs_squeeze (P : List String) (getResults : List (String × String) → String → List α)
    (position squeeze_position : String) : List α :=
  let pos_index := P.indexOf position
  let squeeze_index := P.indexOf squeeze_position
  if squeeze_index ≤ pos_index + 1 then []
  else getResults [(position, "Raise"), (P.getD (pos_index + 1) "", "Call")] position

/-- A session of cached lookups: thread the global `CACHE` through a list of
`read_hand_with_cache` calls (each with its own configuration and action
sequence), as the advisor does across scenarios. -/
def runCachedReads (fs : FS) (C : Nat) (path : String) (hand : String) :
    List (Config × List (String × String)) → Cache → Cache
  | [], cache => cache
  | (cfg, seq) :: rest, cache =>
    runCachedReads fs C path hand rest
      (read_hand_with_cache fs C path cfg hand seq cache).2.2.1

/-- The sequence the seat scan produces for decisions with strictly
increasing rotation indices: for each decision (i, a), Fold entries for the
skipped seats start..i-1, then seat i with action a, continuing from
i+1. -/
def expectedSeq (P : List String) : Nat → List (Nat × String) → List (String × String)
  | _, [] => []
  | start, (i, a) :: rest =>
    (List.range' start (i - start)).map (fun j => (P.getD j "", "Fold")) ++
      ((P.getD i "", a) :: expectedSeq P (i + 1) rest)

/-- The seats folded by the scan, in order. -/
def foldsOf (P : List String) : Nat → List (Nat × String) → List String
  | _, [] => []
  | start, (i, _) :: rest =>
    (List.range' start (i - start)).map (fun j => P.getD j "") ++ foldsOf P (i + 1) rest

/-- The scan start index after all decisions: one past the last decided
seat. -/
def endIndex : Nat → List (Nat × String) → Nat
  | start, [] => start
  | _, (i, _) :: rest => endIndex (i + 1) rest

example : convert_hand "AsKh".toList = some "AKo".toList := by decide

example : convert_hand "AsKs".toList = some "AKs".toList := by decide

example : convert_hand "AsAh".toList = some "AA".toList := by decide

example : convert_hand "AsKdQhJc".toList = some "JQKA".toList := by decide

example : convert_hand "JQKA".toList = some "KJo".toList := by decide

example : convert_hand "AsAcTh3d".toList = some "3TAA".toList := by decide

example : convert_hand "AsKsQdJd".toList = some "(JQ)(KA)".toList := by decide

example : convert_hand "Ad8s7h2c4c".toList = some "78A(24)".toList := by decide

example : convert_hand "Xs2h".toList = none := by decide

lemma mem_RANKS_of_rankOrder?_isSome {c : Char} (h : (rankOrder? c).isSome) :
    c ∈ RANKS := by
  unfold rankOrder? at h
  cases hf : RANK_ORDER.find? (fun p => p.1 == c) with
  | none => rw [hf] at h; simp at h
  | some p =>
    have hpmem : p ∈ RANK_ORDER := List.mem_of_find?_eq_some hf
    have hpc : p.1 = c := by
      have := List.find?_some hf
      simpa using this
    have hall : ∀ q ∈ RANK_ORDER, q.1 ∈ RANKS := by decide
    exact hpc ▸ hall p hpmem

lemma rankOrder?_isSome_of_mem {c : Char} (h : c ∈ RANKS) :
    (rankOrder? c).isSome := by
  fin_cases h <;> decide

lemma rankOrderD_injOn :
    ∀ a ∈ RANKS, ∀ b ∈ RANKS, rankOrderD a = rankOrderD b → a = b := by decide

lemma pySortAsc_perm (key : α → Nat) (l : List α) :
    (pySortAsc key l).Perm l :=
  List.perm_insertionSort _ l

lemma pySortAsc_length (key : α → Nat) (l : List α) :
    (pySortAsc key l).length = l.length :=
  (pySortAsc_perm key l).length_eq

lemma pySortAsc_pairwise (key : α → Nat) (l : List α) :
    (pySortAsc key l).Pairwise (fun a b => key a ≤ key b) := by
  letI : IsTotal α (fun a b => key a ≤ key b) := ⟨fun a b => Nat.le_total _ _⟩
  letI : IsTrans α (fun a b => key a ≤ key b) := ⟨fun a b c hab hbc => Nat.le_trans hab hbc⟩
  exact List.sorted_insertionSort _ l

/-- Two lists sorted by the same key are equal when they are permutations of
each other and the key is injective on their members. -/
lemma sorted_key_unique (key : α → Nat) :
    ∀ {s₁ s₂ : List α}, s₁.Perm s₂ →
      s₁.Pairwise (fun a b => key a ≤ key b) →
      s₂.Pairwise (fun a b => key a ≤ key b) →
      (∀ a ∈ s₁, ∀ b ∈ s₁, key a = key b → a = b) → s₁ = s₂ := by
  intro s₁
  induction s₁ with
  | nil =>
    intro s₂ hp _ _ _
    exact (List.Perm.nil_eq hp).symm ▸ rfl
  | cons a t ih =>
    intro s₂ hp hs₁ hs₂ hinj
    cases s₂ with
    | nil => exact absurd hp.symm (by simp)
    | cons b t₂ =>
      have hamem : a ∈ b :: t₂ := hp.mem_iff.mp (List.mem_cons_self a t)
      have hbmem : b ∈ a :: t := hp.symm.mem_iff.mp (List.mem_cons_self b t₂)
      have hab : a = b := by
        rcases List.mem_cons.mp hamem with h | hat₂
        · exact h
        rcases List.mem_cons.mp hbmem with h | hbt
        · exact h.symm
        have h₁ : key a ≤ key b := (List.pairwise_cons.mp hs₁).1 b hbt
        have h₂ : key b ≤ key a := (List.pairwise_cons.mp hs₂).1 a hat₂
        exact hinj a (List.mem_cons_self a t) b (List.mem_cons.mpr (Or.inr hbt))
          (Nat.le_antisymm h₁ h₂)
      subst hab
      have htp : t.Perm t₂ := hp.cons_inv
      have ht : t = t₂ :=
        ih htp (List.pairwise_cons.mp hs₁).2 (List.pairwise_cons.mp hs₂).2
          (fun x hx y hy hxy =>
            hinj x (List.mem_cons.mpr (Or.inr hx)) y (List.mem_cons.mpr (Or.inr hy)) hxy)
      rw [ht]

/-- Sorting with an injective-on-members key is permutation invariant. -/
lemma pySortAsc_eq_of_perm (key : α → Nat) {l₁ l₂ : List α} (hp : l₁.Perm l₂)
    (hinj : ∀ a ∈ l₁, ∀ b ∈ l₁, key a = key b → a = b) :
    pySortAsc key l₁ = pySortAsc key l₂ := by
  refine sorted_key_unique key ?_ (pySortAsc_pairwise key l₁) (pySortAsc_pairwise key l₂) ?_
  · exact (pySortAsc_perm key l₁).trans (hp.trans (pySortAsc_perm key l₂).symm)
  · intro a ha b hb
    exact hinj a ((pySortAsc_perm key l₁).mem_iff.mp ha) b ((pySortAsc_perm key l₁).mem_iff.mp hb)

/-- The number of cards of a given suit is the count of that suit character in
the suit projection of the card list. -/
lemma filter_suit_length (cards : List Card) (x : Char) :
    (cards.filter (fun c => c.2 == x)).length = (cards.map (fun c => c.2)).count x := by
  rw [List.count_eq_countP, List.countP_map, ← List.countP_eq_length_filter]
  rfl

/-- Every character of a list of suit characters is one of the four suits, so
the four suit counts partition the length. -/
lemma count_suits_partition (l : List Char) (h : ∀ c ∈ l, c ∈ SUITS) :
    l.count 's' + l.count 'd' + l.count 'h' + l.count 'c' = l.length := by
  induction l with
  | nil => simp
  | cons a t ih =>
    have ha : a ∈ SUITS := h a (List.mem_cons_self a t)
    have ht : ∀ c ∈ t, c ∈ SUITS := fun c hc => h c (List.mem_cons.mpr (Or.inr hc))
    have hrec := ih ht
    have : a = 'c' ∨ a = 'd' ∨ a = 'h' ∨ a = 's' := by
      simpa [SUITS] using ha
    rcases this with rfl | rfl | rfl | rfl <;>
      simp [List.count_cons] <;> omega

/-- Claim C9: for every four-character hand with valid rank characters, the
Hold'em converter sorts the two cards by rank descending and emits the pair
form `RR`, the suited form `R1R2s`, or the offsuit form `R1R2o`. -/
theorem holdem_canonical_form (r₁ s₁ r₂ s₂ : Char)
    (h₁ : r₁ ∈ RANKS) (h₂ : r₂ ∈ RANKS) :
    convert_holdem_hand [r₁, s₁, r₂, s₂] =
      some (if r₁ = r₂ then [r₁, r₁]
            else if rankOrderD r₂ ≤ rankOrderD r₁ then
              (if s₁ = s₂ then [r₁, r₂, 's'] else [r₁, r₂, 'o'])
            else
              (if s₁ = s₂ then [r₂, r₁, 's'] else [r₂, r₁, 'o'])) := by
  have hs₁ := rankOrder?_isSome_of_mem h₁
  have hs₂ := rankOrder?_isSome_of_mem h₂
  simp only [rankOrderD]
  by_cases hcmp : (rankOrder? r₂).getD 0 ≤ (rankOrder? r₁).getD 0
  · by_cases heq : r₁ = r₂
    · subst heq
      simp [convert_holdem_hand, pySortDescE, pySortDesc, hs₁, hs₂,
        List.insertionSort, List.orderedInsert, rankOrderD, hcmp]
    · by_cases hsuit : s₁ = s₂ <;>
        simp [convert_holdem_hand, pySortDescE, pySortDesc, hs₁, hs₂, heq, hsuit,
          List.insertionSort, List.orderedInsert, rankOrderD, hcmp]
  · have hne : r₁ ≠ r₂ := by
      intro h
      exact hcmp (h ▸ Nat.le_refl _)
    have hne' : r₂ ≠ r₁ := fun h => hne h.symm
    by_cases hsuit : s₁ = s₂ <;>
      simp [convert_holdem_hand, pySortDescE, pySortDesc, hs₁, hs₂, hne, hne', hsuit,
        List.insertionSort, List.orderedInsert, rankOrderD, hcmp]

/-- Witness for `holdem_canonical_form` at the hand "AsKh": result "AKo". -/
theorem holdem_canonical_form_witness :
    convert_holdem_hand ['A', 's', 'K', 'h'] = some ['A', 'K', 'o'] :=
  (holdem_canonical_form 'A' 's' 'K' 'h' (by decide) (by decide)).trans (by decide)

lemma getD_mem {l : List α} {i : Nat} (h : i < l.length) (d : α) : l.getD i d ∈ l := by
  rw [List.getD_eq_getElem?_getD, List.getElem?_eq_getElem h]
  exact List.getElem_mem h

lemma flattenCards_length (cs : List Card) : (flattenCards cs).length = 2 * cs.length := by
  induction cs with
  | nil => simp [flattenCards]
  | cons c t ih => simp [flattenCards] at ih ⊢; omega

lemma flattenCards_no_space {cs : List Card} (hv : ValidCards cs) :
    ∀ ch ∈ flattenCards cs, ch ≠ ' ' := by
  intro ch hch
  rcases List.mem_flatMap.mp hch with ⟨c, hc, hmem⟩
  have hcv := hv c hc
  have hr : ∀ r ∈ RANKS, r ≠ ' ' := by decide
  have hs : ∀ s ∈ SUITS, s ≠ ' ' := by decide
  have hmem' : ch = c.1 ∨ ch = c.2 := by simpa using hmem
  rcases hmem' with h | h
  · exact h ▸ hr c.1 hcv.1
  · exact h ▸ hs c.2 hcv.2

lemma chunkPairs_flattenCards (cs : List Card) : chunkPairs (flattenCards cs) = cs := by
  induction cs with
  | nil => rfl
  | cons c t ih => simpa [flattenCards, chunkPairs] using ih

lemma filter_eq_self_of_no_space {l : List Char} (h : ∀ ch ∈ l, ch ≠ ' ') :
    l.filter (fun c => c ≠ ' ') = l := by
  rw [List.filter_eq_self]
  intro a ha
  simpa using h a ha

/-- Arithmetic core for the four-card Omaha output shape: with four cards split
into four suit counts, the output length is 4, 6 or 8; it is 4 exactly when
all suits are distinct, and 8 exactly for the double-suited pattern. -/
lemma omaha_len_arith : ∀ a b c d : Fin 5, a.1 + b.1 + c.1 + d.1 = 4 →
    (omahaLen a.1 b.1 c.1 d.1 = 4 ∨ omahaLen a.1 b.1 c.1 d.1 = 6 ∨
        omahaLen a.1 b.1 c.1 d.1 = 8) ∧
      (omahaLen a.1 b.1 c.1 d.1 = 4 ↔ a.1 = 1 ∧ b.1 = 1 ∧ c.1 = 1 ∧ d.1 = 1) ∧
      (omahaLen a.1 b.1 c.1 d.1 = 8 →
        sContrib a.1 + sContrib b.1 + sContrib c.1 + sContrib d.1 = 0 ∧
          tContrib a.1 + tContrib b.1 + tContrib c.1 + tContrib d.1 = 0 ∧
          qContrib a.1 + qContrib b.1 + qContrib c.1 + qContrib d.1 = 0 ∧
          pContrib a.1 + pContrib b.1 + pContrib c.1 + pContrib d.1 = 2) ∧
      (tContrib a.1 + tContrib b.1 + tContrib c.1 + tContrib d.1 ≠ 0 →
        tContrib a.1 + tContrib b.1 + tContrib c.1 + tContrib d.1 = 3) := by
  decide

/-- Arithmetic core for the five-card Omaha output shape: the output length is
5, 7 or 9 (in particular never 4, 8 or 10). -/
lemma omaha5_len_arith : ∀ a b c d : Fin 6, a.1 + b.1 + c.1 + d.1 = 5 →
    (wContrib a.1 + wContrib b.1 + wContrib c.1 + wContrib d.1 = 5 ∨
      wContrib a.1 + wContrib b.1 + wContrib c.1 + wContrib d.1 = 7 ∨
      wContrib a.1 + wContrib b.1 + wContrib c.1 + wContrib d.1 = 9) := by
  decide

/-- Nat-level form of `omaha5_len_arith`. -/
lemma omaha5_len_arith' (a b c d : Nat) (ha : a < 6) (hb : b < 6) (hc : c < 6)
    (hd : d < 6) (h : a + b + c + d = 5) :
    wContrib a + wContrib b + wContrib c + wContrib d = 5 ∨
      wContrib a + wContrib b + wContrib c + wContrib d = 7 ∨
      wContrib a + wContrib b + wContrib c + wContrib d = 9 :=
  omaha5_len_arith ⟨a, ha⟩ ⟨b, hb⟩ ⟨c, hc⟩ ⟨d, hd⟩ h

/-- Nat-level form of `omaha_len_arith`. -/
lemma omaha_len_arith' (a b c d : Nat) (ha : a < 5) (hb : b < 5) (hc : c < 5)
    (hd : d < 5) (h : a + b + c + d = 4) :
    (omahaLen a b c d = 4 ∨ omahaLen a b c d = 6 ∨ omahaLen a b c d = 8) ∧
      (omahaLen a b c d = 4 ↔ a = 1 ∧ b = 1 ∧ c = 1 ∧ d = 1) ∧
      (omahaLen a b c d = 8 →
        sContrib a + sContrib b + sContrib c + sContrib d = 0 ∧
          tContrib a + tContrib b + tContrib c + tContrib d = 0 ∧
          qContrib a + qContrib b + qContrib c + qContrib d = 0 ∧
          pContrib a + pContrib b + pContrib c + pContrib d = 2) ∧
      (tContrib a + tContrib b + tContrib c + tContrib d ≠ 0 →
        tContrib a + tContrib b + tContrib c + tContrib d = 3) :=
  omaha_len_arith ⟨a, ha⟩ ⟨b, hb⟩ ⟨c, hc⟩ ⟨d, hd⟩ h

lemma RANKS_ne_space : ∀ r ∈ RANKS, r ≠ ' ' := by decide

lemma pySortLex_perm (key : α → Nat × Nat) (l : List α) :
    (pySortLex key l).Perm l :=
  List.perm_insertionSort _ l

lemma length_flatMap_const {β : Type} (f : β → List Char) (k : Nat)
    (hf : ∀ x, (f x).length = k) (l : List β) :
    (l.flatMap f).length = k * l.length := by
  induction l with
  | nil => simp
  | cons a t ih => simp [ih, hf a, Nat.mul_succ, Nat.add_comm]

lemma cardsSingleSuitOf_length (cards : List Card) :
    (cardsSingleSuitOf cards).length =
      sContrib (suitCountsOf cards 's') + sContrib (suitCountsOf cards 'd') +
        sContrib (suitCountsOf cards 'h') + sContrib (suitCountsOf cards 'c') := by
  have h : ∀ x, (cards.filter (fun c => c.2 == x)).length = suitCountsOf cards x :=
    fun x => filter_suit_length cards x
  simp only [cardsSingleSuitOf, suitKeys, List.flatMap_cons, List.flatMap_nil,
    List.length_append, List.length_nil, sContrib]
  split_ifs <;> simp_all

lemma cardsTwoSuitedOf_length (cards : List Card) :
    (cardsTwoSuitedOf cards).length =
      pContrib (suitCountsOf cards 's') + pContrib (suitCountsOf cards 'd') +
        pContrib (suitCountsOf cards 'h') + pContrib (suitCountsOf cards 'c') := by
  simp only [cardsTwoSuitedOf, suitKeys, List.filterMap_cons, pContrib]
  split_ifs <;> simp_all

lemma cardsThreeSuitedOf_length (cards : List Card) :
    (cardsThreeSuitedOf cards).length =
      tContrib (suitCountsOf cards 's') + tContrib (suitCountsOf cards 'd') +
        tContrib (suitCountsOf cards 'h') + tContrib (suitCountsOf cards 'c') := by
  have h : ∀ x, (cards.filter (fun c => c.2 == x)).length = suitCountsOf cards x :=
    fun x => filter_suit_length cards x
  simp only [cardsThreeSuitedOf, suitKeys, List.flatMap_cons, List.flatMap_nil,
    List.length_append, List.length_nil, tContrib]
  split_ifs <;> simp_all

lemma cardsFourSuitedOf_length (cards : List Card) :
    (cardsFourSuitedOf cards).length =
      qContrib (suitCountsOf cards 's') + qContrib (suitCountsOf cards 'd') +
        qContrib (suitCountsOf cards 'h') + qContrib (suitCountsOf cards 'c') := by
  have h : ∀ x, (cards.filter (fun c => c.2 == x)).length = suitCountsOf cards x :=
    fun x => filter_suit_length cards x
  simp only [cardsFourSuitedOf, suitKeys, List.flatMap_cons, List.flatMap_nil,
    List.length_append, List.length_nil, qContrib]
  split_ifs <;> simp_all

lemma mem_cardsSingleSuitOf {cards : List Card} {c : Card}
    (h : c ∈ cardsSingleSuitOf cards) : c ∈ cards := by
  rcases List.mem_flatMap.mp h with ⟨s, _, hc⟩
  by_cases hif : suitCountsOf cards s = 1
  · rw [if_pos hif] at hc
    exact (List.mem_filter.mp hc).1
  · rw [if_neg hif] at hc
    cases hc

lemma mem_cardsTwoSuitedOf {cards : List Card} {g : List Card}
    (h : g ∈ cardsTwoSuitedOf cards) : g.length = 2 ∧ ∀ c ∈ g, c ∈ cards := by
  rcases List.mem_filterMap.mp h with ⟨s, _, hg⟩
  by_cases hif : suitCountsOf cards s = 2
  · rw [if_pos hif] at hg
    have hg' : cards.filter (fun c => c.2 == s) = g := by injection hg
    subst hg'
    exact ⟨(filter_suit_length cards s).trans hif, fun c hc => (List.mem_filter.mp hc).1⟩
  · rw [if_neg hif] at hg
    cases hg

lemma mem_cardsThreeSuitedOf {cards : List Card} {c : Card}
    (h : c ∈ cardsThreeSuitedOf cards) : c ∈ cards := by
  rcases List.mem_flatMap.mp h with ⟨s, _, hc⟩
  by_cases hif : suitCountsOf cards s = 3
  · rw [if_pos hif] at hc
    exact (List.mem_filter.mp hc).1
  · rw [if_neg hif] at hc
    cases hc

lemma mem_cardsFourSuitedOf {cards : List Card} {c : Card}
    (h : c ∈ cardsFourSuitedOf cards) : c ∈ cards := by
  rcases List.mem_flatMap.mp h with ⟨s, _, hc⟩
  by_cases hif : suitCountsOf cards s = 4
  · rw [if_pos hif] at hc
    exact (List.mem_filter.mp hc).1
  · rw [if_neg hif] at hc
    cases hc

lemma suitCountsOf_partition (cards : List Card) (hv : ValidCards cards) :
    suitCountsOf cards 's' + suitCountsOf cards 'd' + suitCountsOf cards 'h' +
      suitCountsOf cards 'c' = cards.length := by
  have hmem : ∀ ch ∈ cards.map (fun c => c.2), ch ∈ SUITS := by
    intro ch hch
    rcases List.mem_map.mp hch with ⟨c, hc, rfl⟩
    exact (hv c hc).2
  have := count_suits_partition (cards.map (fun c => c.2)) hmem
  simpa [suitCountsOf] using this

lemma omahaBuild_length (cards : List Card) :
    (omahaBuild cards).length =
      omahaLen (suitCountsOf cards 's') (suitCountsOf cards 'd')
        (suitCountsOf cards 'h') (suitCountsOf cards 'c') := by
  have h₁ : ((pySortAsc (fun c => rankOrderD c.1) (cardsSingleSuitOf cards)).map
      (fun c => c.1)).length = (cardsSingleSuitOf cards).length := by
    rw [List.length_map, pySortAsc_length]
  have h₂ : ∀ (l : List (List Card)),
      (l.flatMap (fun g => ['(', (g.getD 0 (' ', ' ')).1, (g.getD 1 (' ', ' ')).1, ')'])).length
        = 4 * l.length :=
    length_flatMap_const
      (fun (g : List Card) => ['(', (g.getD 0 (' ', ' ')).1, (g.getD 1 (' ', ' ')).1, ')'])
      4 (fun x => rfl)
  have hiff3 : ((cardsThreeSuitedOf cards).isEmpty = true) ↔
      (tContrib (suitCountsOf cards 's') + tContrib (suitCountsOf cards 'd') +
        tContrib (suitCountsOf cards 'h') + tContrib (suitCountsOf cards 'c') = 0) := by
    rw [List.isEmpty_iff, ← List.length_eq_zero, cardsThreeSuitedOf_length]
  have hiff4 : ((cardsFourSuitedOf cards).isEmpty = true) ↔
      (qContrib (suitCountsOf cards 's') + qContrib (suitCountsOf cards 'd') +
        qContrib (suitCountsOf cards 'h') + qContrib (suitCountsOf cards 'c') = 0) := by
    rw [List.isEmpty_iff, ← List.length_eq_zero, cardsFourSuitedOf_length]
  simp only [omahaBuild, omahaLen]
  rw [List.length_append, List.length_append, List.length_append, h₁, h₂,
    (pySortLex_perm _ _).length_eq, List.length_map, cardsSingleSuitOf_length,
    cardsTwoSuitedOf_length]
  simp only [hiff3, hiff4]
  split_ifs with h3 h4 h4 <;>
    simp only [List.length_nil, List.length_cons, List.length_append, List.length_map,
      pySortAsc_length, cardsFourSuitedOf_length] <;> omega

lemma suitCountsOf_le (cards : List Card) (x : Char) :
    suitCountsOf cards x ≤ cards.length := by
  have h := List.count_le_length (a := x) (l := cards.map (fun c => c.2))
  simpa [suitCountsOf] using h

/-- No character of the four-card Omaha output is a space. -/
lemma omahaBuild_no_space (cards : List Card) (hlen : cards.length = 4)
    (hv : ValidCards cards) : ∀ ch ∈ omahaBuild cards, ch ≠ ' ' := by
  have hrank : ∀ c ∈ cards, c.1 ≠ ' ' := fun c hc => RANKS_ne_space c.1 (hv c hc).1
  have hpart : suitCountsOf cards 's' + suitCountsOf cards 'd' + suitCountsOf cards 'h' +
      suitCountsOf cards 'c' = 4 := by
    rw [suitCountsOf_partition cards hv, hlen]
  have hb : ∀ x, suitCountsOf cards x < 5 := fun x =>
    Nat.lt_succ_of_le (hlen ▸ suitCountsOf_le cards x)
  have harith := omaha_len_arith ⟨_, hb 's'⟩ ⟨_, hb 'd'⟩ ⟨_, hb 'h'⟩ ⟨_, hb 'c'⟩ hpart
  have hT3 := harith.2.2.2
  intro ch hch
  simp only [omahaBuild, List.mem_append] at hch
  rcases hch with ((h | h) | h) | h
  · rcases List.mem_map.mp h with ⟨c, hc, rfl⟩
    exact hrank c (mem_cardsSingleSuitOf ((pySortAsc_perm _ _).mem_iff.mp hc))
  · rcases List.mem_flatMap.mp h with ⟨g, hg, hchg⟩
    have hg' := (pySortLex_perm _ _).mem_iff.mp hg
    rcases List.mem_map.mp hg' with ⟨g₀, hg₀, rfl⟩
    obtain ⟨hg₀len, hg₀mem⟩ := mem_cardsTwoSuitedOf hg₀
    have hslen : (pySortAsc (fun c => rankOrderD c.1) g₀).length = 2 := by
      rw [pySortAsc_length]; exact hg₀len
    have hm0 : (pySortAsc (fun c => rankOrderD c.1) g₀).getD 0 (' ', ' ') ∈ g₀ :=
      (pySortAsc_perm _ _).mem_iff.mp (getD_mem (by omega) _)
    have hm1 : (pySortAsc (fun c => rankOrderD c.1) g₀).getD 1 (' ', ' ') ∈ g₀ :=
      (pySortAsc_perm _ _).mem_iff.mp (getD_mem (by omega) _)
    have hchg' : ch = '(' ∨ ch = ((pySortAsc (fun c => rankOrderD c.1) g₀).getD 0 (' ', ' ')).1 ∨
        ch = ((pySortAsc (fun c => rankOrderD c.1) g₀).getD 1 (' ', ' ')).1 ∨ ch = ')' := by
      simpa using hchg
    rcases hchg' with rfl | h' | h' | rfl
    · decide
    · exact h' ▸ hrank _ (hg₀mem _ hm0)
    · exact h' ▸ hrank _ (hg₀mem _ hm1)
    · decide
  · by_cases h3 : (cardsThreeSuitedOf cards).isEmpty
    · rw [if_pos h3] at h
      cases h
    · rw [if_neg h3] at h
      have hTne : (cardsThreeSuitedOf cards).length ≠ 0 := by
        intro h0
        exact h3 (List.isEmpty_iff.mpr (List.length_eq_zero.mp h0))
      have hT : (cardsThreeSuitedOf cards).length = 3 := by
        rw [cardsThreeSuitedOf_length] at hTne ⊢
        exact hT3 hTne
      have hslen : (pySortAsc (fun c => rankOrderD c.1) (cardsThreeSuitedOf cards)).length = 3 := by
        rw [pySortAsc_length]; exact hT
      have hm : ∀ i, i < 3 →
          (pySortAsc (fun c => rankOrderD c.1) (cardsThreeSuitedOf cards)).getD i (' ', ' ')
            ∈ cards := fun i hi =>
        mem_cardsThreeSuitedOf ((pySortAsc_perm _ _).mem_iff.mp (getD_mem (by omega) _))
      have h' : ch = '(' ∨
          ch = ((pySortAsc (fun c => rankOrderD c.1) (cardsThreeSuitedOf cards)).getD 0
            (' ', ' ')).1 ∨
          ch = ((pySortAsc (fun c => rankOrderD c.1) (cardsThreeSuitedOf cards)).getD 1
            (' ', ' ')).1 ∨
          ch = ((pySortAsc (fun c => rankOrderD c.1) (cardsThreeSuitedOf cards)).getD 2
            (' ', ' ')).1 ∨ ch = ')' := by
        simpa using h
      rcases h' with rfl | h' | h' | h' | rfl
      · decide
      · exact h' ▸ hrank _ (hm 0 (by omega))
      · exact h' ▸ hrank _ (hm 1 (by omega))
      · exact h' ▸ hrank _ (hm 2 (by omega))
      · decide
  · by_cases h4 : (cardsFourSuitedOf cards).isEmpty
    · rw [if_pos h4] at h
      cases h
    · rw [if_neg h4] at h
      have h' : ch = '(' ∨ (∃ c ∈ pySortAsc (fun c => rankOrderD c.1) (cardsFourSuitedOf cards),
          c.1 = ch) ∨ ch = ')' := by
        simpa using h
      rcases h' with rfl | ⟨c, hc, rfl⟩ | rfl
      · decide
      · exact hrank c (mem_cardsFourSuitedOf ((pySortAsc_perm _ _).mem_iff.mp hc))
      · decide

/-- When the four-card Omaha output has length 8 it is a double-suited hand
and the output starts with an opening parenthesis. -/
lemma omahaBuild_head_paren (cards : List Card) (hlen : cards.length = 4)
    (hv : ValidCards cards) (h8 : (omahaBuild cards).length = 8) :
    (omahaBuild cards).getD 0 ' ' = '(' := by
  have hpart : suitCountsOf cards 's' + suitCountsOf cards 'd' + suitCountsOf cards 'h' +
      suitCountsOf cards 'c' = 4 := by
    rw [suitCountsOf_partition cards hv, hlen]
  have hb : ∀ x, suitCountsOf cards x < 5 := fun x =>
    Nat.lt_succ_of_le (hlen ▸ suitCountsOf_le cards x)
  have harith := omaha_len_arith ⟨_, hb 's'⟩ ⟨_, hb 'd'⟩ ⟨_, hb 'h'⟩ ⟨_, hb 'c'⟩ hpart
  have hL : omahaLen (suitCountsOf cards 's') (suitCountsOf cards 'd')
      (suitCountsOf cards 'h') (suitCountsOf cards 'c') = 8 := by
    rw [← omahaBuild_length]; exact h8
  obtain ⟨hS, hT, hQ, hP⟩ := harith.2.2.1 hL
  have h1 : cardsSingleSuitOf cards = [] := by
    rw [← List.length_eq_zero, cardsSingleSuitOf_length]
    exact hS
  have h3 : (cardsThreeSuitedOf cards).isEmpty = true := by
    rw [List.isEmpty_iff, ← List.length_eq_zero, cardsThreeSuitedOf_length]
    exact hT
  have h4 : (cardsFourSuitedOf cards).isEmpty = true := by
    rw [List.isEmpty_iff, ← List.length_eq_zero, cardsFourSuitedOf_length]
    exact hQ
  have h2 : (cardsTwoSuitedOf cards).length = 2 := by
    rw [cardsTwoSuitedOf_length]
    exact hP
  have hlen2 : (pySortLex (fun g =>
      (rankOrderD ((g.getD 1 (' ', ' ')).1), rankOrderD ((g.getD 0 (' ', ' ')).1)))
        ((cardsTwoSuitedOf cards).map (pySortAsc (fun c => rankOrderD c.1)))).length = 2 := by
    rw [(pySortLex_perm _ _).length_eq, List.length_map]
    exact h2
  cases hcons : pySortLex (fun g =>
      (rankOrderD ((g.getD 1 (' ', ' ')).1), rankOrderD ((g.getD 0 (' ', ' ')).1)))
        ((cardsTwoSuitedOf cards).map (pySortAsc (fun c => rankOrderD c.1))) with
  | nil => rw [hcons] at hlen2; simp at hlen2
  | cons g t =>
    have hsingles : (pySortAsc (fun c => rankOrderD c.1) (cardsSingleSuitOf cards)).map
        (fun c => c.1) = ([] : List Char) := by
      rw [h1]; rfl
    simp only [omahaBuild]
    rw [hcons]
    simp [hsingles, h3, h4]

lemma contains_RANKS_true {c : Char} (h : c ∈ RANKS) : RANKS.contains c = true := by
  simp [h]

lemma contains_RANKS_false_of_suit {c : Char} (h : c ∈ SUITS) : RANKS.contains c = false := by
  have hn : c ∉ RANKS := by fin_cases h <;> decide
  simp [hn]

lemma contains_SUITS_true {c : Char} (h : c ∈ SUITS) : SUITS.contains c = true := by
  simp [h]

lemma contains_SUITS_false_of_rank {c : Char} (h : c ∈ RANKS) : SUITS.contains c = false := by
  have hn : c ∉ SUITS := by fin_cases h <;> decide
  simp [hn]

lemma flattenCards_cons (c : Card) (t : List Card) :
    flattenCards (c :: t) = c.1 :: c.2 :: flattenCards t := rfl

lemma flattenCards_filter_ranks {cs : List Card} (hv : ValidCards cs) :
    (flattenCards cs).filter (fun c => RANKS.contains c) = cs.map (fun c => c.1) := by
  induction cs with
  | nil => rfl
  | cons c t ih =>
    have hc := hv c (List.mem_cons_self c t)
    have ht : ValidCards t := fun x hx => hv x (List.mem_cons.mpr (Or.inr hx))
    have hdisj : ∀ x ∈ SUITS, x ∉ RANKS := by decide
    rw [flattenCards_cons]
    simp [hc.1, hdisj c.2 hc.2]
    simpa using ih ht

lemma flattenCards_filter_suits {cs : List Card} (hv : ValidCards cs) :
    (flattenCards cs).filter (fun c => SUITS.contains c) = cs.map (fun c => c.2) := by
  induction cs with
  | nil => rfl
  | cons c t ih =>
    have hc := hv c (List.mem_cons_self c t)
    have ht : ValidCards t := fun x hx => hv x (List.mem_cons.mpr (Or.inr hx))
    have hdisj : ∀ x ∈ RANKS, x ∉ SUITS := by decide
    rw [flattenCards_cons]
    simp [hc.2, hdisj c.1 hc.1]
    simpa using ih ht

lemma sum_map_filter_eq (p : α → Bool) (f : α → Nat) (l : List α) :
    ((l.filter p).map f).sum = (l.map (fun x => if p x then f x else 0)).sum := by
  induction l with
  | nil => rfl
  | cons a t ih =>
    by_cases h : p a <;> simp [List.filter_cons, h, ih]

lemma wContrib_split (m : Nat) :
    sContrib m + (if 1 < m then m + 2 else 0) = wContrib m := by
  simp only [sContrib, wContrib]
  split_ifs <;> omega

/-- The per-suit groups of the five-card converter evaluate successfully on a
valid card list: one sorted rank group per suit in key order, whose lengths
are the four suit counts. -/
lemma omaha5Groups_eval (cards : List Card) (hv : ValidCards cards) :
    ∃ gs, omaha5Groups cards = some gs ∧
      (∀ g ∈ gs, ∀ ch ∈ g, ch ∈ RANKS) ∧
      gs.map List.length = [suitCountsOf cards 's', suitCountsOf cards 'd',
        suitCountsOf cards 'h', suitCountsOf cards 'c'] := by
  have hraw : ∀ x : Char, ∀ ch ∈ (cards.filter (fun c => c.2 == x)).map (fun c => c.1),
      ch ∈ RANKS := by
    intro x ch hch
    rcases List.mem_map.mp hch with ⟨c, hc, rfl⟩
    exact (hv c (List.mem_filter.mp hc).1).1
  have hsort : ∀ x : Char,
      pySortAscE rankOrder? ((cards.filter (fun c => c.2 == x)).map (fun c => c.1)) =
        some (pySortAsc (fun a => (rankOrder? a).getD 0)
          ((cards.filter (fun c => c.2 == x)).map (fun c => c.1))) := by
    intro x
    rw [pySortAscE, if_pos]
    rw [List.all_eq_true]
    exact fun ch hch => rankOrder?_isSome_of_mem (hraw x ch hch)
  have heval : omaha5Groups cards =
      some ((suitKeys.map (fun s => (cards.filter (fun c => c.2 == s)).map (fun c => c.1))).map
        (pySortAsc (fun a => (rankOrder? a).getD 0))) := by
    rw [omaha5Groups, ← List.mapM'_eq_mapM]
    simp [suitKeys, List.mapM', hsort 's', hsort 'd', hsort 'h', hsort 'c']
  refine ⟨_, heval, ?_, ?_⟩
  · intro g hg ch hch
    rcases List.mem_map.mp hg with ⟨raw, hraw', rfl⟩
    rcases List.mem_map.mp hraw' with ⟨x, _, rfl⟩
    exact hraw x ch ((pySortAsc_perm _ _).mem_iff.mp hch)
  · simp only [suitKeys, List.map_cons, List.map_nil]
    have hx : ∀ x : Char, (pySortAsc (fun a => (rankOrder? a).getD 0)
        ((cards.filter (fun c => c.2 == x)).map (fun c => c.1))).length =
        suitCountsOf cards x := by
      intro x
      rw [pySortAsc_length, List.length_map, filter_suit_length]
      rfl
    rw [hx 's', hx 'd', hx 'h', hx 'c']

/-- The five-card build step succeeds on groups of valid rank characters; its
output length is the per-group contribution sum and every output character is
a rank or a parenthesis. -/
lemma omaha5Build_eval (gs : List (List Char))
    (hval : ∀ g ∈ gs, ∀ ch ∈ g, ch ∈ RANKS) :
    ∃ k, omaha5Build gs = some k ∧
      k.length = (gs.map (fun g => wContrib g.length)).sum ∧
      ∀ ch ∈ k, ch ∈ RANKS ∨ ch = '(' ∨ ch = ')' := by
  have hunmem : ∀ ch ∈ gs.flatMap (fun g => if g.length = 1 then g else []), ch ∈ RANKS := by
    intro ch hch
    rcases List.mem_flatMap.mp hch with ⟨g, hg, hchg⟩
    by_cases h1 : g.length = 1
    · rw [if_pos h1] at hchg
      exact hval g hg ch hchg
    · rw [if_neg h1] at hchg
      cases hchg
  have hsort1 : pySortAscE rankOrder? (gs.flatMap (fun g => if g.length = 1 then g else [])) =
      some (pySortAsc (fun a => (rankOrder? a).getD 0)
        (gs.flatMap (fun g => if g.length = 1 then g else []))) := by
    rw [pySortAscE, if_pos]
    rw [List.all_eq_true]
    exact fun ch hch => rankOrder?_isSome_of_mem (hunmem ch hch)
  have hsuitmem : ∀ g ∈ gs.filter (fun g => decide (1 < g.length)), 1 < g.length ∧ g ∈ gs := by
    intro g hg
    have h := List.mem_filter.mp hg
    exact ⟨by simpa using h.2, h.1⟩
  have hkey : ∀ g ∈ gs.filter (fun g => decide (1 < g.length)),
      (omaha5SuitedKey g).isSome = true := by
    intro g hg
    obtain ⟨hlen, hmem⟩ := hsuitmem g hg
    have k0 := rankOrder?_isSome_of_mem
      (hval g hmem _ (getD_mem (l := g) (i := 0) (by omega) ' '))
    have k1 := rankOrder?_isSome_of_mem
      (hval g hmem _ (getD_mem (l := g) (i := 1) (by omega) ' '))
    obtain ⟨x, hx⟩ := Option.isSome_iff_exists.mp k0
    obtain ⟨y, hy⟩ := Option.isSome_iff_exists.mp k1
    rw [omaha5SuitedKey, hx, hy]
    rfl
  have hsort2 : pySortLexE omaha5SuitedKey (gs.filter (fun g => decide (1 < g.length))) =
      some (pySortLex (fun g => (omaha5SuitedKey g).getD (0, 0))
        (gs.filter (fun g => decide (1 < g.length)))) := by
    rw [pySortLexE, if_pos]
    rw [List.all_eq_true]
    exact hkey
  refine ⟨pySortAsc (fun a => (rankOrder? a).getD 0)
      (gs.flatMap (fun g => if g.length = 1 then g else [])) ++
      (pySortLex (fun g => (omaha5SuitedKey g).getD (0, 0))
        (gs.filter (fun g => decide (1 < g.length)))).flatMap (fun g => ['('] ++ g ++ [')']),
    ?_, ?_, ?_⟩
  · simp only [omaha5Build]
    rw [hsort1, hsort2]
  · rw [List.length_append, pySortAsc_length, List.length_flatMap]
    have hwrap : ∀ (l : List (List Char)),
        (l.flatMap (fun g => ['('] ++ g ++ [')'])).length = (l.map (fun g => g.length + 2)).sum := by
      intro l
      rw [List.length_flatMap]
      congr 1
      refine List.map_congr_left ?_
      intro g _
      simp [Function.comp]
    rw [hwrap]
    rw [((pySortLex_perm (fun g => (omaha5SuitedKey g).getD (0, 0))
        (gs.filter (fun g => decide (1 < g.length)))).map
        (fun (g : List Char) => g.length + 2)).sum_eq]
    rw [sum_map_filter_eq]
    have hleft : (List.map (List.length ∘ fun g => if g.length = 1 then g else []) gs).sum =
        (gs.map (fun g => sContrib g.length)).sum := by
      congr 1
      refine List.map_congr_left ?_
      intro g _
      simp only [Function.comp, sContrib]
      split_ifs with h <;> simp [h]
    rw [hleft]
    have hcond : (gs.map (fun x => if decide (1 < x.length) = true then x.length + 2 else 0)) =
        (gs.map (fun x => if 1 < x.length then x.length + 2 else 0)) := by
      refine List.map_congr_left ?_
      intro g _
      simp
    rw [hcond, ← List.sum_map_add]
    congr 1
    refine List.map_congr_left ?_
    intro g _
    exact wContrib_split g.length
  · intro ch hch
    rcases List.mem_append.mp hch with h | h
    · exact Or.inl (hunmem ch ((pySortAsc_perm _ _).mem_iff.mp h))
    · rcases List.mem_flatMap.mp h with ⟨g, hg, hchg⟩
      have hg' : g ∈ gs.filter (fun g => decide (1 < g.length)) :=
        (pySortLex_perm _ _).mem_iff.mp hg
      have hgmem : g ∈ gs := (hsuitmem g hg').2
      have h' : ch = '(' ∨ ch ∈ g ∨ ch = ')' := by simpa using hchg
      rcases h' with rfl | h' | rfl
      · exact Or.inr (Or.inl rfl)
      · exact Or.inl (hval g hgmem ch h')
      · exact Or.inr (Or.inr rfl)

/-- On a valid four-card hand string the Omaha converter reaches its build
step. -/
lemma convert_omaha_hand_eval (cs : List Card) (hlen : cs.length = 4)
    (hv : ValidCards cs) :
    convert_omaha_hand (flattenCards cs) = omahaBuild cs := by
  match cs, hlen with
  | [c1, c2, c3, c4], _ =>
    have h1 := hv c1 (by simp)
    have h2 := hv c2 (by simp)
    have h3 := hv c3 (by simp)
    have h4 := hv c4 (by simp)
    show convert_omaha_hand [c1.1, c1.2, c2.1, c2.2, c3.1, c3.2, c4.1, c4.2] = _
    simp [convert_omaha_hand, h1.1, h1.2, h2.1, h2.2, h3.1, h3.2, h4.1, h4.2]

/-- Strings whose length is not 4, 8 or 10 and which contain no space are
fixed points of `convert_hand`. -/
lemma convert_hand_fixed {k : List Char} (hks : ∀ ch ∈ k, ch ≠ ' ')
    (h4 : k.length ≠ 4) (h8 : k.length ≠ 8) (h10 : k.length ≠ 10) :
    convert_hand k = some k := by
  have hfid : k.filter (fun c => c ≠ ' ') = k := filter_eq_self_of_no_space hks
  simp only [convert_hand, hfid]
  rw [if_neg h8, if_neg h4, if_neg h10]

/-- On a valid five-card hand string the Omaha-5 converter succeeds and its
output has length 5, 7 or 9 and contains no space. -/
lemma convert_omaha5_eval (cs : List Card) (hlen : cs.length = 5)
    (hv : ValidCards cs) :
    ∃ k, convert_omaha5_hand (flattenCards cs) = some k ∧
      (k.length = 5 ∨ k.length = 7 ∨ k.length = 9) ∧ ∀ ch ∈ k, ch ≠ ' ' := by
  have hlen10 : (flattenCards cs).length = 10 := by
    rw [flattenCards_length, hlen]
  obtain ⟨gs, hgs, hgsval, hgslen⟩ := omaha5Groups_eval cs hv
  obtain ⟨k, hk, hklen, hkmem⟩ := omaha5Build_eval gs hgsval
  have hrlen : ((flattenCards cs).filter (fun c => RANKS.contains c)).length = 5 := by
    rw [flattenCards_filter_ranks hv, List.length_map, hlen]
  have hslen : ((flattenCards cs).filter (fun c => SUITS.contains c)).length = 5 := by
    rw [flattenCards_filter_suits hv, List.length_map, hlen]
  refine ⟨k, ?_, ?_, ?_⟩
  · simp only [convert_omaha5_hand, hlen10, chunkPairs_flattenCards, hrlen, hslen]
    norm_num
    rw [hgs]
    exact hk
  · have hmm : gs.map (fun g => wContrib g.length) = (gs.map List.length).map wContrib := by
      rw [List.map_map]
      rfl
    have hsum : (gs.map (fun g => wContrib g.length)).sum =
        wContrib (suitCountsOf cs 's') + wContrib (suitCountsOf cs 'd') +
          wContrib (suitCountsOf cs 'h') + wContrib (suitCountsOf cs 'c') := by
      rw [hmm, hgslen]
      simp only [List.map_cons, List.map_nil, List.sum_cons, List.sum_nil]
      omega
    have hpart : suitCountsOf cs 's' + suitCountsOf cs 'd' + suitCountsOf cs 'h' +
        suitCountsOf cs 'c' = 5 := by
      rw [suitCountsOf_partition cs hv, hlen]
    have hb : ∀ x, suitCountsOf cs x < 6 := fun x =>
      Nat.lt_succ_of_le (hlen ▸ suitCountsOf_le cs x)
    have harith := omaha5_len_arith' _ _ _ _ (hb 's') (hb 'd') (hb 'h') (hb 'c') hpart
    rw [hklen, hsum]
    exact harith
  · intro ch hch
    rcases hkmem ch hch with h | h | h
    · exact RANKS_ne_space ch h
    · subst h
      decide
    · subst h
      decide

lemma exists_two_le_suitCount_of_not_nodup {cs : List Card} (hv : ValidCards cs)
    (hrep : ¬ (cs.map (fun c => c.2)).Nodup) :
    ∃ x ∈ SUITS, 2 ≤ suitCountsOf cs x := by
  rw [List.nodup_iff_count_le_one] at hrep
  push_neg at hrep
  obtain ⟨a, ha⟩ := hrep
  have hmem : a ∈ cs.map (fun c => c.2) := by
    by_contra hno
    rw [List.count_eq_zero.mpr hno] at ha
    omega
  have hain : a ∈ SUITS := by
    rcases List.mem_map.mp hmem with ⟨c, hc, rfl⟩
    exact (hv c hc).2
  exact ⟨a, hain, by simpa [suitCountsOf] using ha⟩

/-- Claim C1, counterexample: the valid four-card Omaha hand "AsKdQhJc" (four
distinct suits) canonicalizes to "JQKA", which `convert_hand` reparses as a
Hold'em hand, giving "KJo"; canonicalization is not idempotent on it. -/
theorem convert_hand_not_idempotent :
    ValidCards [('A', 's'), ('K', 'd'), ('Q', 'h'), ('J', 'c')] ∧
      (convert_hand (flattenCards [('A', 's'), ('K', 'd'), ('Q', 'h'), ('J', 'c')])).bind
          convert_hand ≠
        convert_hand (flattenCards [('A', 's'), ('K', 'd'), ('Q', 'h'), ('J', 'c')]) := by
  constructor
  · decide
  · decide

/-- Claim C1 as amended: canonicalization is idempotent on every valid dealt
hand except the four-card hands whose four suits are pairwise distinct (whose
canonical form is a four-character string that is reparsed as Hold'em). -/
theorem convert_hand_idempotent_amended (cs : List Card) (hv : ValidCards cs)
    (hlen : cs.length = 2 ∨ cs.length = 4 ∨ cs.length = 5)
    (hrep : cs.length = 4 → ¬ (cs.map (fun c => c.2)).Nodup) :
    ∃ k, convert_hand (flattenCards cs) = some k ∧ convert_hand k = some k := by
  have hnos := flattenCards_no_space hv
  have hfid : (flattenCards cs).filter (fun c => c ≠ ' ') = flattenCards cs :=
    filter_eq_self_of_no_space hnos
  have hfix3 : ∀ (x y z : Char), x ∈ RANKS → y ∈ RANKS → z ≠ ' ' →
      convert_hand [x, y, z] = some [x, y, z] := by
    intro x y z hx hy hz
    refine convert_hand_fixed ?_ (by simp) (by simp) (by simp)
    intro ch hch
    have : ch = x ∨ ch = y ∨ ch = z := by simpa using hch
    rcases this with rfl | rfl | rfl
    exacts [RANKS_ne_space _ hx, RANKS_ne_space _ hy, hz]
  have hfix2 : ∀ (x : Char), x ∈ RANKS → convert_hand [x, x] = some [x, x] := by
    intro x hx
    refine convert_hand_fixed ?_ (by simp) (by simp) (by simp)
    intro ch hch
    have : ch = x := by simpa using hch
    exact this ▸ RANKS_ne_space _ hx
  rcases hlen with h2 | h4 | h5
  · obtain ⟨a, b, rfl⟩ : ∃ a b, cs = [a, b] := by
      match cs, h2 with
      | [a, b], _ => exact ⟨a, b, rfl⟩
    have ha := hv a (by simp)
    have hb := hv b (by simp)
    have h4len : (flattenCards [a, b]).length = 4 := by
      rw [flattenCards_length]
      rfl
    have heval : convert_hand (flattenCards [a, b]) =
        convert_holdem_hand (flattenCards [a, b]) := by
      simp only [convert_hand]
      rw [hfid, if_neg (by rw [h4len]; omega), if_pos h4len]
    have hflat : flattenCards [a, b] = [a.1, a.2, b.1, b.2] := rfl
    rw [heval, hflat, holdem_canonical_form a.1 a.2 b.1 b.2 ha.1 hb.1]
    refine ⟨_, rfl, ?_⟩
    split_ifs <;>
      first
        | exact hfix2 _ ha.1
        | exact hfix3 _ _ _ ha.1 hb.1 (by decide)
        | exact hfix3 _ _ _ hb.1 ha.1 (by decide)
  · have h8 : (flattenCards cs).length = 8 := by
      rw [flattenCards_length, h4]
    have heval : convert_hand (flattenCards cs) =
        some (convert_omaha_hand (flattenCards cs)) := by
      simp only [convert_hand]
      rw [hfid, if_pos h8]
    rw [heval, convert_omaha_hand_eval cs h4 hv]
    refine ⟨omahaBuild cs, rfl, ?_⟩
    have hpart : suitCountsOf cs 's' + suitCountsOf cs 'd' + suitCountsOf cs 'h' +
        suitCountsOf cs 'c' = 4 := by
      rw [suitCountsOf_partition cs hv, h4]
    have hb5 : ∀ x, suitCountsOf cs x < 5 := fun x =>
      Nat.lt_succ_of_le (h4 ▸ suitCountsOf_le cs x)
    have harith := omaha_len_arith' _ _ _ _ (hb5 's') (hb5 'd') (hb5 'h') (hb5 'c') hpart
    have hL := omahaBuild_length cs
    have hnot4 : omahaLen (suitCountsOf cs 's') (suitCountsOf cs 'd')
        (suitCountsOf cs 'h') (suitCountsOf cs 'c') ≠ 4 := by
      intro hL4
      have hall := harith.2.1.mp hL4
      obtain ⟨x, hxmem, hx2⟩ := exists_two_le_suitCount_of_not_nodup hv (hrep h4)
      fin_cases hxmem <;> omega
    have hnos2 := omahaBuild_no_space cs h4 hv
    rcases harith.1 with hc4 | hc6 | hc8
    · exact absurd hc4 hnot4
    · exact convert_hand_fixed hnos2 (by rw [hL]; omega) (by rw [hL]; omega) (by rw [hL]; omega)
    · have hlen8 : (omahaBuild cs).length = 8 := by
        rw [hL]
        exact hc8
      have hhead := omahaBuild_head_paren cs h4 hv hlen8
      have hfid2 : (omahaBuild cs).filter (fun c => c ≠ ' ') = omahaBuild cs :=
        filter_eq_self_of_no_space hnos2
      simp only [convert_hand]
      rw [hfid2, if_pos hlen8]
      congr 1
      simp only [convert_omaha_hand]
      rw [if_neg (by rw [hlen8]; omega)]
      refine if_pos ?_
      intro hall
      rw [List.all_eq_true] at hall
      have h0 := hall ((omahaBuild cs).getD 0 ' ') (by simp)
      rw [hhead] at h0
      exact absurd h0 (by decide)
  · obtain ⟨k, hk, hklen, hknos⟩ := convert_omaha5_eval cs h5 hv
    have h10 : (flattenCards cs).length = 10 := by
      rw [flattenCards_length, h5]
    have heval : convert_hand (flattenCards cs) = convert_omaha5_hand (flattenCards cs) := by
      simp only [convert_hand]
      rw [hfid, if_neg (by rw [h10]; omega), if_neg (by rw [h10]; omega), if_pos h10]
    exact ⟨k, by rw [heval, hk], convert_hand_fixed hknos (by omega) (by omega) (by omega)⟩

/-- Witness for `convert_hand_idempotent_amended` at the Hold'em hand "AsKs"
and at the Omaha hand "AsKsQdJd". -/
theorem convert_hand_idempotent_amended_witness :
    (∃ k, convert_hand (flattenCards [('A', 's'), ('K', 's')]) = some k ∧
      convert_hand k = some k) ∧
    (∃ k, convert_hand (flattenCards [('A', 's'), ('K', 's'), ('Q', 'd'), ('J', 'd')]) = some k ∧
      convert_hand k = some k) :=
  ⟨convert_hand_idempotent_amended [('A', 's'), ('K', 's')] (by decide) (Or.inl rfl)
      (fun h => absurd h (by decide)),
    convert_hand_idempotent_amended [('A', 's'), ('K', 's'), ('Q', 'd'), ('J', 'd')] (by decide)
      (Or.inr (Or.inl rfl)) (fun _ => by decide)⟩

/-- Claim C4, counterexample: `convert_hand` on the four-character input
"Xs2h" (invalid rank character) raises a `KeyError` inside the Hold'em sort
key instead of returning the input unchanged; `none` models the exception. -/
theorem convert_hand_raises_counterexample :
    convert_hand ['X', 's', '2', 'h'] = none := by decide

/-- Claim C4 as amended: `convert_hand` returns without exception (either a
canonical form or the stripped input unchanged) on every input whose
space-stripped form has a length other than 4 and 10 — in particular on all
8-character inputs, valid or not — and on every valid dealt hand; only 4- and
10-character inputs containing characters outside the alphabets can raise. -/
theorem convert_hand_no_raise_amended (h : List Char) :
    ((h.filter (fun c => c ≠ ' ')).length ≠ 4 ∧ (h.filter (fun c => c ≠ ' ')).length ≠ 10 →
      (convert_hand h).isSome) ∧
    (∀ cs : List Card, ValidCards cs → h.filter (fun c => c ≠ ' ') = flattenCards cs →
      (convert_hand h).isSome) := by
  constructor
  · intro ⟨h4, h10⟩
    simp only [convert_hand]
    by_cases h8 : (h.filter (fun c => c ≠ ' ')).length = 8
    · rw [if_pos h8]
      rfl
    · rw [if_neg h8, if_neg h4, if_neg h10]
      rfl
  · intro cs hv heq
    simp only [convert_hand, heq]
    by_cases h8 : (flattenCards cs).length = 8
    · rw [if_pos h8]
      rfl
    · rw [if_neg h8]
      by_cases h4 : (flattenCards cs).length = 4
      · have hcs2 : cs.length = 2 := by
          have := flattenCards_length cs
          omega
        obtain ⟨a, b, rfl⟩ : ∃ a b, cs = [a, b] := by
          match cs, hcs2 with
          | [a, b], _ => exact ⟨a, b, rfl⟩
        rw [if_pos h4]
        have ha := hv a (by simp)
        have hb := hv b (by simp)
        have hflat : flattenCards [a, b] = [a.1, a.2, b.1, b.2] := rfl
        rw [hflat, holdem_canonical_form a.1 a.2 b.1 b.2 ha.1 hb.1]
        rfl
      · rw [if_neg h4]
        by_cases h10 : (flattenCards cs).length = 10
        · have hcs5 : cs.length = 5 := by
            have := flattenCards_length cs
            omega
          obtain ⟨k, hk, _, _⟩ := convert_omaha5_eval cs hcs5 hv
          rw [if_pos h10, hk]
          rfl
        · rw [if_neg h10]
          rfl

/-- Witness for `convert_hand_no_raise_amended`: the 3-character input "AKo"
never raises, and the valid hand "AsKh" never raises. -/
theorem convert_hand_no_raise_amended_witness :
    (convert_hand ['A', 'K', 'o']).isSome ∧ (convert_hand ['A', 's', 'K', 'h']).isSome :=
  ⟨(convert_hand_no_raise_amended ['A', 'K', 'o']).1 (by decide),
    (convert_hand_no_raise_amended ['A', 's', 'K', 'h']).2 [('A', 's'), ('K', 'h')]
      (by decide) (by decide)⟩

/-- A fallible ascending sort with the `RANK_ORDER` key is invariant under
permutation of its input. -/
lemma pySortAscE_eq_of_perm {l₁ l₂ : List Char} (hp : l₁.Perm l₂) :
    pySortAscE rankOrder? l₁ = pySortAscE rankOrder? l₂ := by
  by_cases hall : l₁.all (fun a => (rankOrder? a).isSome)
  · have hall2 : l₂.all (fun a => (rankOrder? a).isSome) := by
      rw [List.all_eq_true] at hall ⊢
      exact fun x hx => hall x (hp.mem_iff.mpr hx)
    rw [pySortAscE, pySortAscE, if_pos hall, if_pos hall2]
    congr 1
    refine pySortAsc_eq_of_perm _ hp ?_
    intro a ha b hb hk
    rw [List.all_eq_true] at hall
    have hra : a ∈ RANKS := mem_RANKS_of_rankOrder?_isSome (by simpa using hall a ha)
    have hrb : b ∈ RANKS := mem_RANKS_of_rankOrder?_isSome (by simpa using hall b hb)
    exact rankOrderD_injOn a hra b hrb hk
  · have hall2 : ¬ l₂.all (fun a => (rankOrder? a).isSome) := by
      intro hx
      refine hall ?_
      rw [List.all_eq_true] at hx ⊢
      exact fun x hxm => hx x (hp.mem_iff.mp hxm)
    rw [pySortAscE, pySortAscE, if_neg hall, if_neg hall2]

lemma isEmpty_eq_of_length_eq {l₁ l₂ : List α} (h : l₁.length = l₂.length) :
    l₁.isEmpty = l₂.isEmpty := by
  cases l₁ <;> cases l₂ <;> simp_all

lemma perm_two {a b : α} {l : List α} (h : l.Perm [a, b]) : l = [a, b] ∨ l = [b, a] := by
  have hlen := h.length_eq
  match l, hlen with
  | [x, y], _ =>
    have hx : x = a ∨ x = b := by
      have := h.mem_iff.mp (show x ∈ [x, y] by simp)
      simpa using this
    rcases hx with rfl | rfl
    · have htail : [y].Perm [b] := h.cons_inv
      rw [List.perm_singleton] at htail
      left
      injection htail with h1 _
      rw [h1]
    · have h' : List.Perm [x, y] [x, a] := h.trans (List.Perm.swap x a [])
      have htail : [y].Perm [a] := h'.cons_inv
      rw [List.perm_singleton] at htail
      right
      injection htail with h1 _
      rw [h1]

/-- Swapping the two cards of a Hold'em hand does not change the output. -/
lemma convert_holdem_hand_swap (a b : Card) (ha : a.1 ∈ RANKS) (hb : b.1 ∈ RANKS) :
    convert_holdem_hand [b.1, b.2, a.1, a.2] = convert_holdem_hand [a.1, a.2, b.1, b.2] := by
  rw [holdem_canonical_form a.1 a.2 b.1 b.2 ha hb, holdem_canonical_form b.1 b.2 a.1 a.2 hb ha]
  by_cases heq : a.1 = b.1
  · simp [heq]
  · have heq' : ¬ b.1 = a.1 := fun h => heq h.symm
    have hne : rankOrderD a.1 ≠ rankOrderD b.1 := fun h => heq (rankOrderD_injOn _ ha _ hb h)
    by_cases hcmp : rankOrderD b.1 ≤ rankOrderD a.1
    · have hcmp' : ¬ rankOrderD a.1 ≤ rankOrderD b.1 := by omega
      by_cases hsuit : a.2 = b.2
      · simp [heq, heq', hcmp, hcmp', hsuit]
      · have hsuit' : ¬ b.2 = a.2 := fun h => hsuit h.symm
        simp [heq, heq', hcmp, hcmp', hsuit, hsuit']
    · have hcmp' : rankOrderD a.1 ≤ rankOrderD b.1 := by omega
      by_cases hsuit : a.2 = b.2
      · simp [heq, heq', hcmp, hcmp', hsuit]
      · have hsuit' : ¬ b.2 = a.2 := fun h => hsuit h.symm
        simp [heq, heq', hcmp, hcmp', hsuit, hsuit']

/-- The four-card Omaha build is invariant under permutation of the cards. -/
lemma omahaBuild_perm {cs cs' : List Card} (hv : ValidCards cs) (hlen : cs.length = 4)
    (hp : cs.Perm cs') : omahaBuild cs' = omahaBuild cs := by
  have hv' : ValidCards cs' := fun c hc => hv c (hp.mem_iff.mpr hc)
  have hcount : ∀ x, suitCountsOf cs' x = suitCountsOf cs x := by
    intro x
    simp only [suitCountsOf]
    exact ((hp.map (fun c => c.2)).count_eq x).symm
  have hfilterperm : ∀ x : Char,
      (cs.filter (fun c => c.2 == x)).Perm (cs'.filter (fun c => c.2 == x)) :=
    fun x => hp.filter _
  have hmemF : ∀ (l : List Card), ValidCards l → ∀ x : Char,
      ∀ a ∈ l.filter (fun c => c.2 == x), a.1 ∈ RANKS ∧ a.2 = x := by
    intro l hvl x a ha
    have h := List.mem_filter.mp ha
    exact ⟨(hvl a h.1).1, by simpa using h.2⟩
  have hinj1 : ∀ (l : List Card), ValidCards l → ∀ x : Char,
      ∀ a ∈ l.filter (fun c => c.2 == x), ∀ b ∈ l.filter (fun c => c.2 == x),
        rankOrderD a.1 = rankOrderD b.1 → a = b := by
    intro l hvl x a ha b hb hk
    obtain ⟨har, has⟩ := hmemF l hvl x a ha
    obtain ⟨hbr, hbs⟩ := hmemF l hvl x b hb
    exact Prod.ext (rankOrderD_injOn a.1 har b.1 hbr hk) (by rw [has, hbs])
  have hsingles : cardsSingleSuitOf cs' = cardsSingleSuitOf cs := by
    have hblock : ∀ x : Char,
        (if suitCountsOf cs' x = 1 then cs'.filter (fun c => c.2 == x) else []) =
          (if suitCountsOf cs x = 1 then cs.filter (fun c => c.2 == x) else []) := by
      intro x
      rw [hcount]
      by_cases h1 : suitCountsOf cs x = 1
      · rw [if_pos h1, if_pos h1]
        have hl : (cs.filter (fun c => c.2 == x)).length = 1 :=
          (filter_suit_length cs x).trans h1
        obtain ⟨e, he⟩ := List.length_eq_one.mp hl
        have hperm := hfilterperm x
        rw [he] at hperm
        rw [he, List.perm_singleton.mp hperm.symm]
      · rw [if_neg h1, if_neg h1]
    rw [cardsSingleSuitOf, cardsSingleSuitOf]
    simp only [suitKeys, List.flatMap_cons, List.flatMap_nil, hblock]
  have htwo : (cardsTwoSuitedOf cs').map (pySortAsc (fun c => rankOrderD c.1)) =
      (cardsTwoSuitedOf cs).map (pySortAsc (fun c => rankOrderD c.1)) := by
    rw [cardsTwoSuitedOf, cardsTwoSuitedOf, List.map_filterMap, List.map_filterMap]
    refine List.filterMap_congr ?_
    intro x _
    rw [hcount]
    by_cases h2 : suitCountsOf cs x = 2
    · rw [if_pos h2, if_pos h2]
      simp only [Option.map_some']
      congr 1
      exact pySortAsc_eq_of_perm _ (hfilterperm x).symm (hinj1 cs' hv' x)
    · rw [if_neg h2, if_neg h2]
  have hblock3 : ∀ x : Char,
      ((if suitCountsOf cs x = 3 then cs.filter (fun c => c.2 == x) else []) : List Card).Perm
        (if suitCountsOf cs' x = 3 then cs'.filter (fun c => c.2 == x) else []) := by
    intro x
    rw [hcount]
    by_cases h3 : suitCountsOf cs x = 3
    · rw [if_pos h3, if_pos h3]
      exact hfilterperm x
    · rw [if_neg h3, if_neg h3]
  have hblock4 : ∀ x : Char,
      ((if suitCountsOf cs x = 4 then cs.filter (fun c => c.2 == x) else []) : List Card).Perm
        (if suitCountsOf cs' x = 4 then cs'.filter (fun c => c.2 == x) else []) := by
    intro x
    rw [hcount]
    by_cases h4 : suitCountsOf cs x = 4
    · rw [if_pos h4, if_pos h4]
      exact hfilterperm x
    · rw [if_neg h4, if_neg h4]
  have hthreeperm : (cardsThreeSuitedOf cs).Perm (cardsThreeSuitedOf cs') := by
    rw [cardsThreeSuitedOf, cardsThreeSuitedOf]
    simp only [suitKeys, List.flatMap_cons, List.flatMap_nil]
    exact List.Perm.append (hblock3 's') (List.Perm.append (hblock3 'd')
      (List.Perm.append (hblock3 'h') (List.Perm.append (hblock3 'c') (List.Perm.refl []))))
  have hfourperm : (cardsFourSuitedOf cs).Perm (cardsFourSuitedOf cs') := by
    rw [cardsFourSuitedOf, cardsFourSuitedOf]
    simp only [suitKeys, List.flatMap_cons, List.flatMap_nil]
    exact List.Perm.append (hblock4 's') (List.Perm.append (hblock4 'd')
      (List.Perm.append (hblock4 'h') (List.Perm.append (hblock4 'c') (List.Perm.refl []))))
  have hpart : suitCountsOf cs 's' + suitCountsOf cs 'd' + suitCountsOf cs 'h' +
      suitCountsOf cs 'c' = 4 := by
    rw [suitCountsOf_partition cs hv, hlen]
  have hmem_three : ∀ a ∈ cardsThreeSuitedOf cs, ∃ x ∈ suitKeys,
      suitCountsOf cs x = 3 ∧ a ∈ cs.filter (fun c => c.2 == x) := by
    intro a ha
    rcases List.mem_flatMap.mp ha with ⟨x, hx, hax⟩
    by_cases h3 : suitCountsOf cs x = 3
    · rw [if_pos h3] at hax
      exact ⟨x, hx, h3, hax⟩
    · rw [if_neg h3] at hax
      cases hax
  have hthree_inj : ∀ a ∈ cardsThreeSuitedOf cs, ∀ b ∈ cardsThreeSuitedOf cs,
      rankOrderD a.1 = rankOrderD b.1 → a = b := by
    intro a ha b hb hk
    obtain ⟨x, hx, hcx, hax⟩ := hmem_three a ha
    obtain ⟨y, hy, hcy, hby⟩ := hmem_three b hb
    have hxy : x = y := by
      fin_cases hx <;> fin_cases hy <;> first | rfl | omega
    subst hxy
    exact hinj1 cs hv x a hax b hby hk
  have hmem_four : ∀ a ∈ cardsFourSuitedOf cs, ∃ x ∈ suitKeys,
      suitCountsOf cs x = 4 ∧ a ∈ cs.filter (fun c => c.2 == x) := by
    intro a ha
    rcases List.mem_flatMap.mp ha with ⟨x, hx, hax⟩
    by_cases h4 : suitCountsOf cs x = 4
    · rw [if_pos h4] at hax
      exact ⟨x, hx, h4, hax⟩
    · rw [if_neg h4] at hax
      cases hax
  have hfour_inj : ∀ a ∈ cardsFourSuitedOf cs, ∀ b ∈ cardsFourSuitedOf cs,
      rankOrderD a.1 = rankOrderD b.1 → a = b := by
    intro a ha b hb hk
    obtain ⟨x, hx, hcx, hax⟩ := hmem_four a ha
    obtain ⟨y, hy, hcy, hby⟩ := hmem_four b hb
    have hxy : x = y := by
      fin_cases hx <;> fin_cases hy <;> first | rfl | omega
    subst hxy
    exact hinj1 cs hv x a hax b hby hk
  have hthree : pySortAsc (fun c => rankOrderD c.1) (cardsThreeSuitedOf cs') =
      pySortAsc (fun c => rankOrderD c.1) (cardsThreeSuitedOf cs) :=
    (pySortAsc_eq_of_perm _ hthreeperm hthree_inj).symm
  have hfour : pySortAsc (fun c => rankOrderD c.1) (cardsFourSuitedOf cs') =
      pySortAsc (fun c => rankOrderD c.1) (cardsFourSuitedOf cs) :=
    (pySortAsc_eq_of_perm _ hfourperm hfour_inj).symm
  have hemp3 : (cardsThreeSuitedOf cs').isEmpty = (cardsThreeSuitedOf cs).isEmpty :=
    (isEmpty_eq_of_length_eq hthreeperm.length_eq).symm
  have hemp4 : (cardsFourSuitedOf cs').isEmpty = (cardsFourSuitedOf cs).isEmpty :=
    (isEmpty_eq_of_length_eq hfourperm.length_eq).symm
  simp only [omahaBuild, hsingles, htwo, hthree, hfour, hemp3, hemp4]

/-- The per-suit rank groups of the five-card converter are invariant under
permutation of the cards. -/
lemma omaha5Groups_perm {cs cs' : List Card} (hp : cs.Perm cs') :
    omaha5Groups cs' = omaha5Groups cs := by
  have hkey : ∀ s : Char,
      pySortAscE rankOrder? ((cs'.filter (fun c => c.2 == s)).map (fun c => c.1)) =
        pySortAscE rankOrder? ((cs.filter (fun c => c.2 == s)).map (fun c => c.1)) := by
    intro s
    exact pySortAscE_eq_of_perm (((hp.symm).filter _).map _)
  rw [omaha5Groups, omaha5Groups, ← List.mapM'_eq_mapM, ← List.mapM'_eq_mapM]
  simp [suitKeys, List.mapM', hkey 's', hkey 'd', hkey 'h', hkey 'c']

/-- Claim C3: for every valid dealt hand, permuting the two-character card
groups leaves the output of `convert_hand` unchanged. -/
theorem convert_hand_perm_invariant (cs cs' : List Card) (hv : ValidCards cs)
    (hlen : cs.length = 2 ∨ cs.length = 4 ∨ cs.length = 5) (hp : cs.Perm cs') :
    convert_hand (flattenCards cs') = convert_hand (flattenCards cs) := by
  have hv' : ValidCards cs' := fun c hc => hv c (hp.mem_iff.mpr hc)
  have hfid : (flattenCards cs).filter (fun c => c ≠ ' ') = flattenCards cs :=
    filter_eq_self_of_no_space (flattenCards_no_space hv)
  have hfid' : (flattenCards cs').filter (fun c => c ≠ ' ') = flattenCards cs' :=
    filter_eq_self_of_no_space (flattenCards_no_space hv')
  rcases hlen with h2 | h4 | h5
  · obtain ⟨a, b, rfl⟩ : ∃ a b, cs = [a, b] := by
      match cs, h2 with
      | [a, b], _ => exact ⟨a, b, rfl⟩
    have heval : ∀ (x y : Card), ValidCards [x, y] →
        convert_hand (flattenCards [x, y]) = convert_holdem_hand [x.1, x.2, y.1, y.2] := by
      intro x y hvxy
      have hfid2 := filter_eq_self_of_no_space (flattenCards_no_space hvxy)
      have h4len : (flattenCards [x, y]).length = 4 := by
        rw [flattenCards_length]
        rfl
      simp only [convert_hand]
      rw [hfid2, if_neg (by rw [h4len]; omega), if_pos h4len]
      rfl
    rcases perm_two hp.symm with rfl | rfl
    · rfl
    · rw [heval b a hv', heval a b hv]
      exact convert_holdem_hand_swap a b (hv a (by simp)).1 (hv b (by simp)).1
  · have h4' : cs'.length = 4 := hp.length_eq ▸ h4
    have h8 : (flattenCards cs).length = 8 := by
      rw [flattenCards_length, h4]
    have h8' : (flattenCards cs').length = 8 := by
      rw [flattenCards_length, h4']
    have heval1 : convert_hand (flattenCards cs) = some (omahaBuild cs) := by
      simp only [convert_hand]
      rw [hfid, if_pos h8, convert_omaha_hand_eval cs h4 hv]
    have heval2 : convert_hand (flattenCards cs') = some (omahaBuild cs') := by
      simp only [convert_hand]
      rw [hfid', if_pos h8', convert_omaha_hand_eval cs' h4' hv']
    rw [heval1, heval2, omahaBuild_perm hv h4 hp]
  · have h5' : cs'.length = 5 := hp.length_eq ▸ h5
    have hwrap : ∀ cs₀ : List Card, ValidCards cs₀ → cs₀.length = 5 →
        convert_hand (flattenCards cs₀) =
          (match omaha5Groups cs₀ with
            | none => none
            | some gs => omaha5Build gs) := by
      intro cs₀ hv₀ h₀
      have hfid₀ := filter_eq_self_of_no_space (flattenCards_no_space hv₀)
      have h10 : (flattenCards cs₀).length = 10 := by
        rw [flattenCards_length, h₀]
      have hrlen : ((flattenCards cs₀).filter (fun c => RANKS.contains c)).length = 5 := by
        rw [flattenCards_filter_ranks hv₀, List.length_map, h₀]
      have hslen : ((flattenCards cs₀).filter (fun c => SUITS.contains c)).length = 5 := by
        rw [flattenCards_filter_suits hv₀, List.length_map, h₀]
      simp only [convert_hand]
      rw [hfid₀, if_neg (by rw [h10]; omega), if_neg (by rw [h10]; omega), if_pos h10]
      simp only [convert_omaha5_hand, h10, chunkPairs_flattenCards, hrlen, hslen]
      norm_num
    rw [hwrap cs' hv' h5', hwrap cs hv h5, omaha5Groups_perm hp]

/-- Witness for `convert_hand_perm_invariant`: swapping the two cards of
"AsKh" leaves the canonical output unchanged. -/
theorem convert_hand_perm_invariant_witness :
    convert_hand (flattenCards [('K', 'h'), ('A', 's')]) =
      convert_hand (flattenCards [('A', 's'), ('K', 'h')]) :=
  convert_hand_perm_invariant [('A', 's'), ('K', 'h')] [('K', 'h'), ('A', 's')]
    (by decide) (Or.inl rfl) (by decide)

/-- The configuration produced by `ActionProcessor.__init__` from an empty
initial dictionary: the default tokens (note `Call` defaults to the filename
token "1", not "Call") and the ladder-derived raise keys. -/
theorem initConfigs_default : initConfigs [] = some
    [("Fold", "0"), ("Call", "1"), ("RaisePot", "2"), ("All_In", "3"), ("Ending", ".rng"),
     ("RaiseSizeList", "2.5,3.0,4.0"), ("ValidActions", "Fold,Call,Raise"),
     ("Raise250", "Raise250"), ("Raise300", "Raise300"), ("Raise400", "Raise400")] := by
  decide

/-- Claim C7, counterexample to the example clause: with the ladder resolved
to `Raise250`, the decisions `[("SB","Raise250"), ("BB","Call")]` encode under
the default token table to the file "Raise250.1.rng" (the `Call` token
defaults to "1"), not to "Raise250.Call.rng". -/
theorem raise_example_filename_counterexample :
    (get_filename
      [("Fold", "0"), ("Call", "1"), ("RaisePot", "2"), ("All_In", "3"), ("Ending", ".rng"),
       ("RaiseSizeList", "2.5,3.0,4.0"), ("ValidActions", "Fold,Call,Raise"),
       ("Raise250", "Raise250"), ("Raise300", "Raise300"), ("Raise400", "Raise400")]
      [("SB", "Raise250"), ("BB", "Call")]).1 = "Raise250.1.rng" ∧
    ("Raise250.1.rng" : String) ≠ "Raise250.Call.rng" := by
  constructor
  · decide
  · decide

/-- Claim C7 as amended: `find_valid_raise_sizes` replaces every abstract
"Raise" by the key built from the first ladder entry (never consulting the
filesystem — the function has no filesystem argument) and keeps the other
entries; with ladder `[2.5]` the decisions `[("SB","Raise"), ("BB","Call")]`
resolve to `[("SB","Raise250"), ("BB","Call")]`, and under the default token
table they encode to the file "Raise250.1.rng" (not "Raise250.Call.rng",
because the `Call` token defaults to "1"). -/
theorem raise_resolution_first_match :
    (∀ (cfg : Config) (K e : String) (rest : List String) (seq : List (String × String)),
      pySplitOn ',' ((cfgGet cfg "RaiseSizeList").getD "") = e :: rest →
      raiseKeyOfEntry e = some (some K) →
      find_valid_raise_sizes cfg seq =
        some (seq.map (fun p => if p.2 = "Raise" then (p.1, K) else p))) ∧
    (∃ cfgD : Config, initConfigs [] = some cfgD ∧
      find_valid_raise_sizes cfgD [("SB", "Raise"), ("BB", "Call")] =
        some [("SB", "Raise250"), ("BB", "Call")] ∧
      (get_filename cfgD [("SB", "Raise250"), ("BB", "Call")]).1 = "Raise250.1.rng") := by
  constructor
  · intro cfg K e rest seq hsplit hkey
    rw [find_valid_raise_sizes, hsplit]
    induction seq with
    | nil => rfl
    | cons p t ih =>
      rcases p with ⟨pos, act⟩
      by_cases ha : act = "Raise"
      · subst ha
        simp only [resolveRaises, firstRaiseKey, hkey, ih, List.map_cons]
        simp
      · simp only [resolveRaises, ha, ih, List.map_cons, if_neg ha]
        simp [ha]
  · exact ⟨_, initConfigs_default, by decide, by decide⟩

/-- Witness for `raise_resolution_first_match`: the resolution applied with
the default ladder "2.5,3.0,4.0". -/
theorem raise_resolution_first_match_witness :
    find_valid_raise_sizes [("RaiseSizeList", "2.5,3.0,4.0")]
        [("SB", "Raise"), ("BB", "Call")] =
      some [("SB", "Raise250"), ("BB", "Call")] := by
  have h := raise_resolution_first_match.1 [("RaiseSizeList", "2.5,3.0,4.0")]
    "Raise250" "2.5" ["3.0", "4.0"] [("SB", "Raise"), ("BB", "Call")] (by decide) (by decide)
  rw [h]
  decide

/-- Claim C8: scenario geometry — a scenario whose seats coincide or whose
index arithmetic violates its ordering constraint returns the empty result,
for any underlying `get_results` behaviour. -/
theorem scenario_geometry_empty {α : Type} (P : List String)
    (getResults : List (String × String) → String → List α) (p q : String)
    (hp : p ∈ P) (hq : q ∈ P) :
    get_vs_4bet P getResults p p = [] ∧
    get_4bet P getResults p p = [] ∧
    (P.indexOf p ≤ P.indexOf q + 1 → get_squeeze P getResults p q = []) ∧
    (P.indexOf q ≤ P.indexOf p + 1 → get_vs_squeeze P getResults p q = []) ∧
    (P.indexOf p = 0 → get_vs_4bet P getResults p q = []) ∧
    (P.indexOf q < P.indexOf p → P.indexOf q = 0 → get_4bet P getResults p q = []) := by
  refine ⟨?_, ?_, ?_, ?_, ?_, ?_⟩
  · simp [get_vs_4bet]
  · simp [get_4bet]
  · intro h
    simp [get_squeeze, h]
  · intro h
    simp [get_vs_squeeze, h]
  · intro h
    simp [get_vs_4bet, h]
  · intro h1 h2
    have hne : p ≠ q := by
      intro he
      rw [he] at h1
      omega
    simp only [get_4bet]
    rw [if_neg hne, if_pos h1, if_pos h2]

/-- Witness for `scenario_geometry_empty` on the rotation `[SB, BB]`. -/
theorem scenario_geometry_empty_witness :
    get_vs_4bet ["SB", "BB"] (fun _ _ => ([0] : List Nat)) "BB" "BB" = [] ∧
    get_4bet ["SB", "BB"] (fun _ _ => ([0] : List Nat)) "BB" "BB" = [] ∧
    (List.indexOf "BB" ["SB", "BB"] ≤ List.indexOf "SB" ["SB", "BB"] + 1 →
      get_squeeze ["SB", "BB"] (fun _ _ => ([0] : List Nat)) "BB" "SB" = []) ∧
    (List.indexOf "SB" ["SB", "BB"] ≤ List.indexOf "BB" ["SB", "BB"] + 1 →
      get_vs_squeeze ["SB", "BB"] (fun _ _ => ([0] : List Nat)) "BB" "SB" = []) ∧
    (List.indexOf "BB" ["SB", "BB"] = 0 →
      get_vs_4bet ["SB", "BB"] (fun _ _ => ([0] : List Nat)) "BB" "SB" = []) ∧
    (List.indexOf "SB" ["SB", "BB"] < List.indexOf "BB" ["SB", "BB"] →
      List.indexOf "SB" ["SB", "BB"] = 0 →
      get_4bet ["SB", "BB"] (fun _ _ => ([0] : List Nat)) "BB" "SB" = []) :=
  scenario_geometry_empty ["SB", "BB"] (fun _ _ => ([0] : List Nat)) "BB" "SB"
    (by decide) (by decide)

/-- Claim C5, counterexample: the cache is FIFO, not LRU.  With capacity 2,
after inserting files a and b, a hit on a (the third call, read flag
`false`) does not mark a most-recently-used: the next miss evicts a (the
oldest-inserted entry) rather than b (the least-recently-used one). -/
theorem cache_not_lru_counterexample :
    (let fs : FS := fun _ => none
     let cfg : Config := [("Ending", ".rng"), ("A", "a"), ("B", "b"), ("C", "c")]
     let s1 := read_hand_with_cache fs 2 "r" cfg "AA" [("X", "A")] []
     let s2 := read_hand_with_cache fs 2 "r" s1.2.1 "AA" [("X", "B")] s1.2.2.1
     let s3 := read_hand_with_cache fs 2 "r" s2.2.1 "AA" [("X", "A")] s2.2.2.1
     let s4 := read_hand_with_cache fs 2 "r" s3.2.1 "AA" [("X", "C")] s3.2.2.1
     s3.2.2.2 = false ∧ s3.2.2.1.map Prod.fst = ["r/a.rng", "r/b.rng"] ∧
       s4.2.2.1.map Prod.fst = ["r/b.rng", "r/c.rng"] ∧
       s4.2.2.1.map Prod.fst ≠ ["r/a.rng", "r/c.rng"]) := by
  decide

/-- Claim C5 as amended: the cache is FIFO.  A get on a resident path
returns its table without reordering or otherwise modifying the cache (no
most-recently-used marking, read flag `false`); a miss reads the file, and
when the cache is at capacity the evicted entry is the front one — the
least-recently-inserted, regardless of recent use — before the new entry is
appended at the back. -/
theorem cache_fifo_amended (fs : FS) (C : Nat) (path : String) (cfg : Config)
    (hand : String) (seq : List (String × String)) (cache : Cache) :
    (∀ entry,
      cache.find? (fun p => p.1 == joinPath path (get_filename cfg seq).1) = some entry →
      read_hand_with_cache fs C path cfg hand seq cache =
        (lookupResult entry.2 hand seq, (get_filename cfg seq).2, cache, false)) ∧
    (cache.find? (fun p => p.1 == joinPath path (get_filename cfg seq).1) = none →
      C ≤ cache.length →
      read_hand_with_cache fs C path cfg hand seq cache =
        (lookupResult (read_file_into_hash fs (joinPath path (get_filename cfg seq).1)) hand seq,
         (get_filename cfg seq).2,
         cache.drop 1 ++ [(joinPath path (get_filename cfg seq).1,
           read_file_into_hash fs (joinPath path (get_filename cfg seq).1))],
         true)) := by
  constructor
  · intro entry h
    simp only [read_hand_with_cache, h]
  · intro h hC
    simp only [read_hand_with_cache, h, if_pos hC]

/-- Witness for `cache_fifo_amended`: a miss at capacity 1 evicts the
resident entry and appends the new one. -/
theorem cache_fifo_amended_witness :
    read_hand_with_cache (fun _ => none) 1 "r" [("Ending", ".rng"), ("A", "a")] "AA"
        [("X", "A")] [("r/z.rng", [])] =
      (some ("", 0, 0), [("Ending", ".rng"), ("A", "a")], [("r/a.rng", [])], true) := by
  have h := (cache_fifo_amended (fun _ => none) 1 "r" [("Ending", ".rng"), ("A", "a")] "AA"
      [("X", "A")] [("r/z.rng", [])]).2 (by decide) (by decide)
  rw [h]
  rfl

/-- Claim C10, counterexample: the empty table cached for a missing file can
be evicted, after which the same path IS re-read from disk.  With capacity 1
and file a absent from the filesystem: a miss on a inserts the empty table
(read flag `true`), a miss on b evicts it, and the next lookup under a
probes the filesystem again (read flag `true` a second time). -/
theorem missing_file_reread_counterexample :
    (let fs : FS := fun f => if f = "r/b.rng" then some [] else none
     let cfg : Config := [("Ending", ".rng"), ("A", "a"), ("B", "b")]
     let s1 := read_hand_with_cache fs 1 "r" cfg "AA" [("X", "A")] []
     let s2 := read_hand_with_cache fs 1 "r" s1.2.1 "AA" [("X", "B")] s1.2.2.1
     let s3 := read_hand_with_cache fs 1 "r" s2.2.1 "AA" [("X", "A")] s2.2.2.1
     s1.2.2.2 = true ∧ s1.2.2.1 = [("r/a.rng", [])] ∧
       s2.2.2.1 = [("r/b.rng", [])] ∧ s3.2.2.2 = true) := by
  decide

/-- Claim C10 as amended: a cached lookup on a path whose file does not
exist inserts the empty table for that path (occupying a cache slot,
evicting the front entry if at capacity) and returns the degraded result
("", 0, 0); and while that entry stays resident, every lookup of any hand
under that path returns the degraded result without touching the
filesystem.  The entry is not immune to eviction: once evicted, the path is
read from disk again (see `missing_file_reread_counterexample`). -/
theorem missing_file_cached_amended (fs : FS) (C : Nat) (path : String) (cfg : Config)
    (hand : String) (seq : List (String × String)) (cache : Cache) :
    (fs (joinPath path (get_filename cfg seq).1) = none →
      cache.find? (fun p => p.1 == joinPath path (get_filename cfg seq).1) = none →
      read_hand_with_cache fs C path cfg hand seq cache =
        (some ("", 0, 0), (get_filename cfg seq).2,
         (if C ≤ cache.length then cache.drop 1 else cache) ++
           [(joinPath path (get_filename cfg seq).1, [])], true)) ∧
    (∀ entry, cache.find? (fun p => p.1 == joinPath path (get_filename cfg seq).1) = some entry →
      entry.2 = [] →
      read_hand_with_cache fs C path cfg hand seq cache =
        (some ("", 0, 0), (get_filename cfg seq).2, cache, false)) := by
  constructor
  · intro hfs hfind
    simp only [read_hand_with_cache, hfind, read_file_into_hash, hfs]
    rfl
  · intro entry hfind hempty
    simp only [read_hand_with_cache, hfind, hempty]
    rfl

/-- Witness for `missing_file_cached_amended`: a miss on an absent file with
an empty cache of capacity 1 inserts the empty table and degrades. -/
theorem missing_file_cached_amended_witness :
    read_hand_with_cache (fun _ => none) 1 "r" [("Ending", ".rng"), ("A", "a")] "KK"
        [("X", "A")] [] =
      (some ("", 0, 0), [("Ending", ".rng"), ("A", "a")], [("r/a.rng", [])], true) := by
  have h := (missing_file_cached_amended (fun _ => none) 1 "r"
      [("Ending", ".rng"), ("A", "a")] "KK" [("X", "A")] []).1 rfl (by decide)
  rw [h]
  rfl

/-- One cached read keeps the cache within capacity `C` when `0 < C`. -/
theorem cache_step_length_le (fs : FS) (C : Nat) (path : String) (cfg : Config)
    (hand : String) (seq : List (String × String)) (cache : Cache)
    (hC : 0 < C) (hlen : cache.length ≤ C) :
    ((read_hand_with_cache fs C path cfg hand seq cache).2.2.1).length ≤ C := by
  cases hfind : cache.find?
      (fun p => p.1 == joinPath path (get_filename cfg seq).1) with
  | some entry =>
    simp only [read_hand_with_cache, hfind]
    exact hlen
  | none =>
    simp only [read_hand_with_cache, hfind]
    by_cases hcap : C ≤ cache.length
    · rw [if_pos hcap]
      simp only [List.length_append, List.length_drop, List.length_cons, List.length_nil]
      omega
    · rw [if_neg hcap]
      simp only [List.length_append, List.length_cons, List.length_nil]
      omega

/-- A whole session of cached reads keeps the cache within capacity. -/
theorem runCachedReads_length_le (fs : FS) (C : Nat) (path : String) (hand : String)
    (reqs : List (Config × List (String × String))) (cache : Cache)
    (hC : 0 < C) (hlen : cache.length ≤ C) :
    (runCachedReads fs C path hand reqs cache).length ≤ C := by
  induction reqs generalizing cache with
  | nil => exact hlen
  | cons r rest ih =>
    rcases r with ⟨cfg, seq⟩
    rw [runCachedReads]
    exact ih _ (cache_step_length_le fs C path cfg hand seq cache hC hlen)

/-- With `cache_size = 0`, `get_results` routes every read through
`read_hand` (the line-streaming reader) and the cache is never modified. -/
theorem goActions_zero_preserves (fs : FS) (path : String) (P : List String)
    (hand : String) (abl : List (String × String)) (position : String) :
    ∀ (actions : List String) (cfg : Config) (cache : Cache) (acc : List Result)
      (out : List Result × Config × Cache),
      goActions fs 0 path P hand abl position actions cfg cache acc = some out →
      out.2.2 = cache := by
  intro actions
  induction actions with
  | nil =>
    intro cfg cache acc out h
    simp only [goActions] at h
    cases h
    rfl
  | cons a rest ih =>
    intro cfg cache acc out h
    simp only [goActions] at h
    split at h
    · exact absurd h (by simp)
    · split at h
      · rw [if_pos trivial] at h
        split at h
        · exact absurd h (by simp)
        · exact ih _ _ _ _ h
      · exact ih _ _ _ _ h

/-- Claim C6: starting from an empty cache with capacity `0 < C`, any
session of cached lookups leaves at most `C` resident entries; and with
`cache_size = 0`, `get_results` streams files via `read_hand` and returns
the cache exactly as it received it — no entry is retained between calls. -/
theorem cache_size_invariant (fs : FS) (C : Nat) (path : String) (hand : String)
    (reqs : List (Config × List (String × String))) (hC : 0 < C)
    (P : List String) (cfg : Config) (abl : List (String × String))
    (position : String) (cache : Cache) :
    (runCachedReads fs C path hand reqs []).length ≤ C ∧
    (∀ out, get_results fs 0 path P cfg hand abl position cache = some out →
      out.2.2 = cache) := by
  constructor
  · exact runCachedReads_length_le fs C path hand reqs [] hC (by simp)
  · intro out h
    rw [get_results] at h
    split at h
    · cases h
      rfl
    · split at h
      · exact absurd h (by simp)
      · exact goActions_zero_preserves fs path P _ abl position _ cfg cache [] out h

/-- Witness for `cache_size_invariant` on a concrete two-request session
with capacity 1. -/
theorem cache_size_invariant_witness :
    (runCachedReads (fun _ => none) 1 "r" "AA"
        [([("Ending", ".rng"), ("A", "a")], [("X", "A")]),
         ([("Ending", ".rng"), ("B", "b")], [("X", "B")])] []).length ≤ 1 ∧
    (∀ out,
      get_results (fun _ => none) 0 "r" ["SB", "BB"] [] "AA" [] "SB" [("r/z.rng", [])] =
        some out → out.2.2 = [("r/z.rng", [])]) :=
  cache_size_invariant (fun _ => none) 1 "r" "AA"
    [([("Ending", ".rng"), ("A", "a")], [("X", "A")]),
     ([("Ending", ".rng"), ("B", "b")], [("X", "B")])] (by decide)
    ["SB", "BB"] [] [] "SB" [("r/z.rng", [])]

/-- Splitting a `range'` interval. -/
theorem range'_split (s m n : Nat) :
    List.range' s (m + n) = List.range' s m ++ List.range' (s + m) n := by
  have h := List.range'_append s m n 1
  simp only [one_mul] at h
  rw [Nat.add_comm n m] at h
  exact h.symm

/-- In a duplicate-free rotation, distinct valid indices name distinct
seats. -/
theorem getD_ne_of_nodup (P : List String) (hnd : P.Nodup) (j1 j2 : Nat)
    (h1 : j1 < P.length) (h2 : j2 < P.length) (hne : j1 ≠ j2) :
    P.getD j1 "" ≠ P.getD j2 "" := by
  rw [List.getD_eq_getElem P "" h1, List.getD_eq_getElem P "" h2]
  intro he
  exact hne ((List.Nodup.getElem_inj_iff hnd).mp he)

/-- One scan of `scanIdx` towards a target seat ahead of the pointer: it
folds every seat between the pointer and the target, emits the decision,
and restarts just past the target. -/
theorem scanIdx_go (P : List String) (hnd : P.Nodup) (i : Nat) (act : String)
    (start : Nat) (hin : i < P.length) :
    ∀ (m a : Nat) (acc : List (String × String)) (folded : List String),
      a + m = P.length → a + start ≤ i →
      (∀ j, a + start ≤ j → j < P.length → P.getD j "" ∉ folded) →
      scanIdx P (P.getD i "") act start (List.range' a m) acc folded =
        (acc ++ ((List.range' (a + start) (i - (a + start))).map
            (fun j => (P.getD j "", "Fold")) ++ [(P.getD i "", act)]),
         folded ++ (List.range' (a + start) (i - (a + start))).map (fun j => P.getD j ""),
         i + 1) := by
  intro m
  induction m with
  | zero =>
    intro a acc folded hm hlo hfresh
    exact absurd hin (by omega)
  | succ m ih =>
    intro a acc folded hm hlo hfresh
    rw [List.range'_succ]
    have hmod : (a + start) % P.length = a + start := Nat.mod_eq_of_lt (by omega)
    by_cases hcase : a + start = i
    · have hmod2 : i % P.length = i := Nat.mod_eq_of_lt hin
      simp only [scanIdx, hcase, hmod2]
      rw [if_neg (not_not_intro rfl)]
      have hz : i - i = 0 := by omega
      rw [hz]
      simp [List.range']
    · have hlt : a + start < i := by omega
      have hne : P.getD (a + start) "" ≠ P.getD i "" :=
        getD_ne_of_nodup P hnd _ _ (by omega) hin (by omega)
      have hnotf : P.getD (a + start) "" ∉ folded := hfresh _ (le_refl _) (by omega)
      simp only [scanIdx, hmod]
      rw [if_pos hne, if_pos hnotf]
      have hfresh2 : ∀ j, (a + 1) + start ≤ j → j < P.length →
          P.getD j "" ∉ folded ++ [P.getD (a + start) ""] := by
        intro j hj hjl
        simp only [List.mem_append, List.mem_singleton]
        rintro (h | h)
        · exact hfresh j (by omega) hjl h
        · exact getD_ne_of_nodup P hnd j (a + start) hjl (by omega) (by omega) h
      rw [ih (a + 1) (acc ++ [(P.getD (a + start) "", "Fold")])
        (folded ++ [P.getD (a + start) ""]) (by omega) (by omega) hfresh2]
      have harith : i - (a + start) = (i - (a + 1 + start)) + 1 := by omega
      have hidx : a + start + 1 = a + 1 + start := by omega
      rw [harith, List.range'_succ, hidx]
      simp [List.append_assoc]

/-- The outer fold of `get_action_sequence` over decisions with strictly
increasing rotation indices. -/
theorem foldl_scan (P : List String) (hnd : P.Nodup) :
    ∀ (ds : List (Nat × String)) (start : Nat) (acc : List (String × String))
      (folded : List String),
      (∀ d ∈ ds, start ≤ d.1 ∧ d.1 < P.length) →
      List.Pairwise (fun x y => x.1 < y.1) ds →
      (∀ j, start ≤ j → j < P.length → P.getD j "" ∉ folded) →
      (ds.map (fun d => (P.getD d.1 "", d.2))).foldl
          (fun st a => scanIdx P a.1 a.2 st.2.2 (List.range P.length) st.1 st.2.1)
          (acc, folded, start) =
        (acc ++ expectedSeq P start ds, folded ++ foldsOf P start ds, endIndex start ds) := by
  intro ds
  induction ds with
  | nil =>
    intro start acc folded hmem hpw hfresh
    simp [expectedSeq, foldsOf, endIndex]
  | cons d rest ih =>
    rcases d with ⟨i, act⟩
    intro start acc folded hmem hpw hfresh
    obtain ⟨hhead, htail⟩ := List.pairwise_cons.mp hpw
    have hi := hmem (i, act) (by simp)
    have hstep := scanIdx_go P hnd i act start hi.2 P.length 0 acc folded
      (by omega) (by omega) (fun j hj hjl => hfresh j (by omega) hjl)
    simp only [Nat.zero_add] at hstep
    rw [← List.range_eq_range'] at hstep
    simp only [List.map_cons, List.foldl_cons]
    rw [hstep]
    have hrest : ∀ e ∈ rest, i + 1 ≤ e.1 ∧ e.1 < P.length := by
      intro e he
      exact ⟨hhead e he, (hmem e (by simp [he])).2⟩
    have hfresh2 : ∀ j, i + 1 ≤ j → j < P.length →
        P.getD j "" ∉ folded ++ (List.range' start (i - start)).map
          (fun j => P.getD j "") := by
      intro j hj hjl
      simp only [List.mem_append, List.mem_map]
      rintro (h | ⟨k, hk, hkj⟩)
      · exact hfresh j (by omega) hjl h
      · rw [List.mem_range'_1] at hk
        exact getD_ne_of_nodup P hnd k j (by omega) hjl (by omega) hkj
    rw [ih (i + 1) (acc ++ ((List.range' start (i - start)).map
        (fun j => (P.getD j "", "Fold")) ++ [(P.getD i "", act)]))
      (folded ++ (List.range' start (i - start)).map (fun j => P.getD j ""))
      hrest htail hfresh2]
    simp [expectedSeq, foldsOf, endIndex, List.append_assoc]

/-- `endIndex` never moves backwards. -/
theorem endIndex_ge : ∀ (ds : List (Nat × String)) (start : Nat),
    (∀ d ∈ ds, start ≤ d.1) → List.Pairwise (fun x y => x.1 < y.1) ds →
    start ≤ endIndex start ds := by
  intro ds
  induction ds with
  | nil =>
    intro start _ _
    exact le_refl start
  | cons d rest ih =>
    rcases d with ⟨i, act⟩
    intro start hmem hpw
    obtain ⟨hhead, htail⟩ := List.pairwise_cons.mp hpw
    have h1 : start ≤ i := hmem (i, act) (by simp)
    have h2 := ih (i + 1) (fun e he => hhead e he) htail
    calc start ≤ i + 1 := by omega
      _ ≤ endIndex (i + 1) rest := h2
      _ = endIndex start ((i, act) :: rest) := rfl

/-- The seats of the expected sequence are exactly the rotation seats from
`start` up to the end index, in order. -/
theorem expectedSeq_fst (P : List String) :
    ∀ (ds : List (Nat × String)) (start : Nat),
      (∀ d ∈ ds, start ≤ d.1) → List.Pairwise (fun x y => x.1 < y.1) ds →
      (expectedSeq P start ds).map Prod.fst =
        (List.range' start (endIndex start ds - start)).map (fun j => P.getD j "") := by
  intro ds
  induction ds with
  | nil =>
    intro start _ _
    simp [expectedSeq, endIndex]
  | cons d rest ih =>
    rcases d with ⟨i, act⟩
    intro start hmem hpw
    obtain ⟨hhead, htail⟩ := List.pairwise_cons.mp hpw
    have hstart : start ≤ i := hmem (i, act) (by simp)
    have hrest : ∀ e ∈ rest, i + 1 ≤ e.1 := fun e he => hhead e he
    have hend : i + 1 ≤ endIndex (i + 1) rest := endIndex_ge rest (i + 1) hrest htail
    simp only [expectedSeq, endIndex, List.map_append, List.map_cons, List.map_map]
    rw [ih (i + 1) hrest htail]
    have harith : endIndex (i + 1) rest - start =
        (i - start) + (1 + (endIndex (i + 1) rest - (i + 1))) := by omega
    rw [harith, range'_split]
    have h1 : start + (i - start) = i := by omega
    rw [h1, range'_split, List.range'_one]
    simp [Function.comp, List.append_assoc]

/-- Claim C2, counterexample: the output need not contain each active seat
exactly once.  On rotation [SB, BB] the decision list [(SB, Call)] yields
[(SB, Call)] — BB never appears; and a decision list that revisits an
earlier seat, [(B, Call), (A, Call)] on rotation [A, B], repeats seat A. -/
theorem action_sequence_counterexample :
    get_action_sequence ["SB", "BB"] [("SB", "Call")] = [("SB", "Call")] ∧
    "BB" ∉ (get_action_sequence ["SB", "BB"] [("SB", "Call")]).map Prod.fst ∧
    get_action_sequence ["A", "B"] [("B", "Call"), ("A", "Call")] =
      [("A", "Fold"), ("B", "Call"), ("A", "Call")] := by
  decide

/-- Claim C2 as amended: for a duplicate-free rotation and decisions whose
rotation indices are strictly increasing, `get_action_sequence` emits, for
each decision in turn, Fold entries for exactly the seats skipped since the
previous decision and then the decided seat with its action; hence the
seats of the output are exactly seats 0 up to the last decided seat, each
once, in rotation order — seats after the last decision do not appear. -/
theorem action_sequence_amended (P : List String) (hnd : P.Nodup)
    (ds : List (Nat × String))
    (hlt : ∀ d ∈ ds, d.1 < P.length)
    (hinc : List.Pairwise (fun x y => x.1 < y.1) ds) :
    get_action_sequence P (ds.map (fun d => (P.getD d.1 "", d.2))) =
      expectedSeq P 0 ds ∧
    (get_action_sequence P (ds.map (fun d => (P.getD d.1 "", d.2)))).map Prod.fst =
      (List.range (endIndex 0 ds)).map (fun j => P.getD j "") := by
  have hmem : ∀ d ∈ ds, 0 ≤ d.1 ∧ d.1 < P.length := fun d hd => ⟨Nat.zero_le _, hlt d hd⟩
  have hfoldl := foldl_scan P hnd ds 0 [] [] hmem hinc (by simp)
  have hmain : get_action_sequence P (ds.map (fun d => (P.getD d.1 "", d.2))) =
      expectedSeq P 0 ds := by
    rw [get_action_sequence, hfoldl]
    simp
  refine ⟨hmain, ?_⟩
  rw [hmain, expectedSeq_fst P ds 0 (fun d hd => Nat.zero_le _) hinc,
    List.range_eq_range']
  simp

/-- Witness for `action_sequence_amended` on rotation [A, B, C] with
decisions at indices 0 and 2. -/
theorem action_sequence_amended_witness :
    get_action_sequence ["A", "B", "C"]
        ([((0 : Nat), "Raise"), (2, "Call")].map
          (fun d => (List.getD ["A", "B", "C"] d.1 "", d.2))) =
      expectedSeq ["A", "B", "C"] 0 [((0 : Nat), "Raise"), (2, "Call")] ∧
    (get_action_sequence ["A", "B", "C"]
        ([((0 : Nat), "Raise"), (2, "Call")].map
          (fun d => (List.getD ["A", "B", "C"] d.1 "", d.2)))).map Prod.fst =
      (List.range (endIndex 0 [((0 : Nat), "Raise"), (2, "Call")])).map
        (fun j => List.getD ["A", "B", "C"] j "") :=
  action_sequence_amended ["A", "B", "C"] (by decide) [((0 : Nat), "Raise"), (2, "Call")]
    (by decide) (by decide)

end PreflopAdvisor
